import Mathlib

/-!
Verification of the itinerary-optimization and AI-output-normalization core of
the travel-smart-ai repository against its specification's claims.

Shallow-embedding conventions:
* JavaScript numbers are modelled as rationals (`ℚ`); `Math.round` is modelled
  by `jsRound` (round half toward +∞, the JavaScript semantics).
* The haversine `calculateDistance` is transcendental, so every routine that
  consumes it is parameterized over an arbitrary distance function `dist`; the
  theorems hold for every distance function, hence for the haversine.
* Strings are Lean `String`s / `List Char`; `toLowerCase`, `includes`,
  `startsWith` and `trim` are modelled character-wise (ASCII).
-/

/-- JavaScript `Math.round`: round half toward +∞, i.e. `⌊q + 1/2⌋`,
computed on the normalized rational so that it evaluates by `decide`. -/
def jsRound (q : ℚ) : ℤ :=
  (q + 1/2).num.ediv ((q + 1/2).den : ℤ)

/-!  ## Model of src/unnamed/part_003 (`SmartItineraryOptimizer`, second revision)  -/

/-- `getPaceMultiplier` from src/unnamed/part_003 (lines 365-374).  The
`switch` has a silent `default` branch returning 1, so the argument is
modelled as a raw string to cover runtime values outside the declared union
type. -/
def getPaceMultiplier (pace : String) : ℚ :=
  if pace = "relaxed" then 7/10
  else if pace = "intensive" then 13/10
  else 1

/-- One execution of the `forEach` body of `clusterLocations`: the location at
input index `i` is pushed onto bucket `i % numClusters`. -/
def clusterPush {α : Type} (numClusters : ℕ) (cs : List (List α)) (i : ℕ) (x : α) :
    List (List α) :=
  cs.set (i % numClusters) (cs.getD (i % numClusters) [] ++ [x])

/-- The `forEach` loop of `clusterLocations`, threading the input index. -/
def clusterGo {α : Type} (numClusters : ℕ) : List α → ℕ → List (List α) → List (List α)
  | [], _, cs => cs
  | x :: xs, i, cs => clusterGo numClusters xs (i + 1) (clusterPush numClusters cs i x)

/-- `clusterLocations` from src/unnamed/part_003 (lines 441-454):
`numClusters` empty buckets, then each location is pushed onto bucket
`index % numClusters`. -/
def clusterLocations {α : Type} (locations : List α) (numClusters : ℕ) : List (List α) :=
  clusterGo numClusters locations 0 (List.replicate numClusters [])

/-- The inner `for` loop of `optimizeRoute`'s nearest-neighbour step: scan the
candidate indexes left to right, keeping `(nearest, minDistance)`; a candidate
is accepted iff it is unvisited and strictly closer than the best so far
(`minDistance` starts at `Infinity`, modelled by `none`). -/
def nearestGo (dist : ℕ → ℕ → ℚ) (cur : ℕ) (visited : List ℕ) :
    List ℕ → Option (ℕ × ℚ) → Option (ℕ × ℚ)
  | [], acc => acc
  | i :: is, acc =>
      let d := dist cur i
      let accept := !(decide (i ∈ visited)) &&
        (match acc with
         | none => true
         | some p => decide (d < p.2))
      nearestGo dist cur visited is (if accept then some (i, d) else acc)

/-- The nearest unvisited index from `cur`, scanning `0 .. n-1` as the source
`for` loop does (`-1`, i.e. no candidate, is modelled by `none`). -/
def nearestUnvisited (dist : ℕ → ℕ → ℚ) (cur : ℕ) (visited : List ℕ) (n : ℕ) : Option ℕ :=
  (nearestGo dist cur visited (List.range n) none).map Prod.fst

/-- The `while` loop of `optimizeRoute` on indexes.  `fuel` bounds the number
of iterations; the loop visits each index at most once, so fuel `n` is exact. -/
def optimizeRouteGo (dist : ℕ → ℕ → ℚ) (n : ℕ) : ℕ → ℕ → List ℕ → List ℕ
  | 0, _, _ => []
  | fuel + 1, cur, visited =>
      let visited2 := visited ++ [cur]
      match nearestUnvisited dist cur visited2 n with
      | none => [cur]
      | some nxt => cur :: optimizeRouteGo dist n fuel nxt visited2

/-- Index-level nearest-neighbour route: start at index 0 with nothing
visited. -/
def optimizeRouteIdx (dist : ℕ → ℕ → ℚ) (n : ℕ) : List ℕ :=
  optimizeRouteGo dist n n 0 []

/-- The `Location` interface of `SmartItineraryOptimizer`
(src/unnamed/part_003, second revision, lines 302-312). -/
structure Loc3 where
  id : String
  name : String
  address : String
  latitude : ℚ
  longitude : ℚ
  day_index : ℚ
  estimated_duration : Option ℚ
  rating : Option ℚ
  notes : Option String
deriving DecidableEq, Inhabited

/-- The pairwise `distances` matrix built by `optimizeRoute`: 0 on the
diagonal, `calculateDistance` (abstracted as `dist`) off it. -/
def distMatrix (dist : Loc3 → Loc3 → ℚ) (locs : List Loc3) (i j : ℕ) : ℚ :=
  if i = j then 0
  else dist (locs.getD i default) (locs.getD j default)

/-- `optimizeRoute` (src/unnamed/part_003, lines 456-503): lists of length ≤ 1
are returned unchanged, otherwise a greedy nearest-neighbour walk over the
distance matrix starting at index 0. -/
def optimizeRoute (dist : Loc3 → Loc3 → ℚ) (locs : List Loc3) : List Loc3 :=
  if locs.length ≤ 1 then locs
  else (optimizeRouteIdx (distMatrix dist locs) locs.length).map
    (fun i => locs.getD i default)

/-- `calculateTravelTime` (second revision, lines 505-529): the distance-based
estimate `Math.round(distance * 2 * 60)`, assuming 30 km/h average speed.  The
`catch` branch is unreachable (the body cannot throw) and is not modelled. -/
def calculateTravelTime (dist : Loc3 → Loc3 → ℚ) (a b : Loc3) : ℚ :=
  (jsRound (dist a b * 2 * 60) : ℤ)

/-- The `totalDuration` accumulation of `optimizeItinerary`'s per-day loop:
`(estimated_duration || 60) * paceMultiplier` summed over the routed list. -/
def sumDuration (mult : ℚ) : List Loc3 → ℚ
  | [] => 0
  | l :: rest => l.estimated_duration.getD 60 * mult + sumDuration mult rest

/-- The `totalTravelTime` accumulation: travel time between each pair of
consecutive stops of the routed list. -/
def sumTravel (dist : Loc3 → Loc3 → ℚ) : List Loc3 → ℚ
  | [] => 0
  | [_] => 0
  | a :: b :: rest => calculateTravelTime dist a b + sumTravel dist (b :: rest)

/-- The per-day output record of `optimizeItinerary` (`OptimizedDay` minus the
`date` field, which is real-time bookkeeping irrelevant to the claims). -/
structure OptimizedDay where
  locations : List Loc3
  totalTravelTime : ℚ
  totalDuration : ℚ
deriving DecidableEq, Inhabited

/-- The departure pseudo-place prepended by `optimizeItinerary`
(id `departure`, no `estimated_duration`). -/
def departureLoc (depName depAddress : String) (depLat depLon : ℚ) : Loc3 :=
  { id := "departure", name := depName, address := depAddress,
    latitude := depLat, longitude := depLon, day_index := 0,
    estimated_duration := none, rating := none, notes := none }

/-- The body of `optimizeItinerary`'s per-cluster map: day 0 keeps the
departure point before routing, later days filter it out; the totals are
computed over the routed list (departure point included), while the returned
`locations` exclude it. -/
def optimizeDay (dist : Loc3 → Loc3 → ℚ) (mult : ℚ) (idx : ℕ) (cluster : List Loc3) :
    OptimizedDay :=
  let optimized := optimizeRoute dist
    (if idx = 0 then cluster else cluster.filter (fun l => l.id ≠ "departure"))
  { locations := optimized.filter (fun l => l.id ≠ "departure"),
    totalTravelTime := sumTravel dist optimized,
    totalDuration := sumDuration mult optimized }

/-- `optimizeItinerary` (src/unnamed/part_003, lines 376-439), the manual
optimization path: prepend the departure pseudo-place, cluster round-robin
over `daysCount`, then route and total each cluster. -/
def optimizeItinerary (dist : Loc3 → Loc3 → ℚ) (pace : String) (locations : List Loc3)
    (depName depAddress : String) (depLat depLon : ℚ) (daysCount : ℕ) : List OptimizedDay :=
  let mult := getPaceMultiplier pace
  let startLoc := departureLoc depName depAddress depLat depLon
  let clusters := clusterLocations (startLoc :: locations) daysCount
  clusters.enum.map (fun p => optimizeDay dist mult p.1 p.2)

/-!  ## Model of the retry loop of `generateItinerary` (src/unnamed/part_008)  -/

def MAX_RETRIES : ℕ := 3

def RETRY_DELAY : ℕ := 1000

/-- The `for` retry loop of `generateItinerary` (lines 476-589), abstracted
over the body of one attempt (`f attempt` = the whole call + parse + validate
pipeline for that attempt).  Returns the final outcome together with the list
of backoff delays awaited, in ms; after a failed attempt `< MAX_RETRIES` the
code awaits `RETRY_DELAY * attempt`, and once all attempts fail it throws an
error carrying the last failure's message. -/
def retryGo {α : Type} (f : ℕ → Except String α) :
    List ℕ → Option String → List ℕ → Except String α × List ℕ
  | [], lastErr, delays =>
      (.error ("Failed to generate itinerary after 3 attempts. Last error: " ++
        lastErr.getD "undefined"), delays)
  | attempt :: rest, _, delays =>
      match f attempt with
      | .ok v => (.ok v, delays)
      | .error e =>
          if attempt < MAX_RETRIES then
            retryGo f rest (some e) (delays ++ [RETRY_DELAY * attempt])
          else retryGo f rest (some e) delays

/-- `generateItinerary`'s retry structure: attempts numbered 1 to
`MAX_RETRIES`, starting with no recorded error and no delays. -/
def generateItineraryRetry {α : Type} (f : ℕ → Except String α) :
    Except String α × List ℕ :=
  retryGo f (List.range' 1 MAX_RETRIES) none []

/-!  ## C7: retry behaviour  -/

/-- C7: for every sequence of failing attempts, `generateItinerary` makes
exactly the three attempts (the message interpolates `MAX_RETRIES = 3` and the
carried message is the third attempt's), waits `attempt × RETRY_DELAY`
(1000 ms then 2000 ms) before the two retries, and finally throws an error
carrying the last failure's message. -/
theorem generateItinerary_retry_exhausted {α : Type} (errs : ℕ → String) :
    generateItineraryRetry (fun a => (Except.error (errs a) : Except String α)) =
      (Except.error ("Failed to generate itinerary after 3 attempts. Last error: " ++ errs 3),
       [RETRY_DELAY * 1, RETRY_DELAY * 2]) := rfl

/-!  ## C9: unknown pace values  -/

/-- C9 counterexample: the pace value `turbo` lies outside
{relaxed, balanced, intensive}, yet the pace-adjustment step returns the
default multiplier 1 (balanced) instead of raising an error. -/
theorem getPaceMultiplier_unknown_silently_defaults :
    getPaceMultiplier "turbo" = 1 := by decide

/-- C9 amended: for every pace value other than `relaxed` and `intensive` —
in particular for every value outside {relaxed, balanced, intensive} —
`getPaceMultiplier` silently returns the balanced default multiplier 1; the
`switch` has a `default` branch and never raises. -/
theorem getPaceMultiplier_default_branch (pace : String)
    (h1 : pace ≠ "relaxed") (h2 : pace ≠ "intensive") :
    getPaceMultiplier pace = 1 := by
  unfold getPaceMultiplier
  rw [if_neg h1, if_neg h2]

/-- Witness for C9's amended theorem at the concrete unknown pace `fast`. -/
theorem getPaceMultiplier_default_branch_witness :
    ("fast" : String) ≠ "relaxed" ∧ ("fast" : String) ≠ "intensive" ∧
      getPaceMultiplier "fast" = 1 :=
  ⟨by decide, by decide, getPaceMultiplier_default_branch "fast" (by decide) (by decide)⟩

/-!  ## C3, C4, C8: route sequencer and clusterer  -/

lemma nearestGo_eq_none (dist : ℕ → ℕ → ℚ) (cur : ℕ) (visited : List ℕ) :
    ∀ (L : List ℕ) (acc : Option (ℕ × ℚ)),
      nearestGo dist cur visited L acc = none ↔ (acc = none ∧ ∀ i ∈ L, i ∈ visited) := by
  intro L
  induction L with
  | nil => intro acc; simp [nearestGo]
  | cons i is ih =>
      intro acc
      simp only [nearestGo]
      by_cases hv : i ∈ visited
      · have hb : (!(decide (i ∈ visited))) = false := by simp [hv]
        rw [hb, Bool.false_and, if_neg Bool.false_ne_true, ih]
        constructor
        · rintro ⟨h1, h2⟩
          refine ⟨h1, fun j hj => ?_⟩
          rcases List.mem_cons.1 hj with rfl | hj
          · exact hv
          · exact h2 j hj
        · rintro ⟨h1, h2⟩
          exact ⟨h1, fun j hj => h2 j (List.mem_cons_of_mem _ hj)⟩
      · have hb : (!(decide (i ∈ visited))) = true := by simp [hv]
        rw [hb, Bool.true_and]
        cases acc with
        | none =>
            rw [if_pos rfl, ih]
            simp [hv]
        | some p =>
            by_cases hd : dist cur i < p.2
            · rw [if_pos (by simp [hd]), ih]
              simp
            · rw [if_neg (by simp [hd]), ih]
              constructor
              · rintro ⟨h1, _⟩
                exact absurd h1 (by simp)
              · rintro ⟨h1, _⟩
                exact absurd h1 (by simp)

lemma nearestGo_spec (dist : ℕ → ℕ → ℚ) (cur : ℕ) (visited : List ℕ) :
    ∀ (L : List ℕ), List.Pairwise (· < ·) L →
    ∀ (acc : Option (ℕ × ℚ)),
      (∀ ja ma, acc = some (ja, ma) → ja ∉ visited ∧ ma = dist cur ja ∧ ∀ i ∈ L, ja < i) →
      ∀ j m, nearestGo dist cur visited L acc = some (j, m) →
        m = dist cur j ∧ j ∉ visited ∧ (acc = some (j, m) ∨ j ∈ L) ∧
        (∀ i ∈ L, i ∉ visited →
          dist cur j ≤ dist cur i ∧ (dist cur i = dist cur j → j ≤ i)) ∧
        (∀ ja ma, acc = some (ja, ma) →
          dist cur j ≤ ma ∧ (dist cur j = ma → j = ja)) := by
  intro L
  induction L with
  | nil =>
      intro _ acc hacc j m hres
      simp only [nearestGo] at hres
      obtain ⟨h1, h2, _⟩ := hacc j m hres
      subst hres
      refine ⟨h2, h1, Or.inl rfl, by simp, ?_⟩
      rintro ja ma h
      rw [Option.some_inj, Prod.mk.injEq] at h
      obtain ⟨rfl, rfl⟩ := h
      exact ⟨le_of_eq h2.symm, fun _ => rfl⟩
  | cons i0 is ih =>
      intro hP acc hacc j m hres
      have hPis : List.Pairwise (· < ·) is := hP.tail
      have hi0lt : ∀ i ∈ is, i0 < i := fun i hi => (List.pairwise_cons.1 hP).1 i hi
      simp only [nearestGo] at hres
      by_cases hv : i0 ∈ visited
      · have hb : (!(decide (i0 ∈ visited))) = false := by simp [hv]
        rw [hb, Bool.false_and, if_neg Bool.false_ne_true] at hres
        obtain ⟨e1, e2, e3, e4, e5⟩ := ih hPis acc
          (fun ja ma h => ⟨(hacc ja ma h).1, (hacc ja ma h).2.1,
            fun i hi => (hacc ja ma h).2.2 i (List.mem_cons_of_mem _ hi)⟩) j m hres
        refine ⟨e1, e2, ?_, ?_, e5⟩
        · rcases e3 with h | h
          · exact Or.inl h
          · exact Or.inr (List.mem_cons_of_mem _ h)
        · intro i hi hiv
          rcases List.mem_cons.1 hi with rfl | hi
          · exact absurd hv hiv
          · exact e4 i hi hiv
      · have hb : (!(decide (i0 ∈ visited))) = true := by simp [hv]
        rw [hb, Bool.true_and] at hres
        have haccept : nearestGo dist cur visited is (some (i0, dist cur i0)) = some (j, m) →
            m = dist cur j ∧ j ∉ visited ∧ j ∈ i0 :: is ∧
            (∀ i ∈ i0 :: is, i ∉ visited →
              dist cur j ≤ dist cur i ∧ (dist cur i = dist cur j → j ≤ i)) ∧
            (∀ ma', dist cur i0 < ma' → dist cur j ≤ ma' ∧ dist cur j ≠ ma') := by
          intro hres'
          obtain ⟨e1, e2, e3, e4, e5⟩ := ih hPis (some (i0, dist cur i0))
            (by
              rintro ja ma h
              rw [Option.some_inj, Prod.mk.injEq] at h
              obtain ⟨rfl, rfl⟩ := h
              exact ⟨hv, rfl, hi0lt⟩) j m hres'
          have ei0 := e5 i0 (dist cur i0) rfl
          refine ⟨e1, e2, ?_, ?_, ?_⟩
          · rcases e3 with h | h
            · rw [Option.some_inj, Prod.mk.injEq] at h
              exact h.1 ▸ List.mem_cons_self _ _
            · exact List.mem_cons_of_mem _ h
          · intro i hi hiv
            rcases List.mem_cons.1 hi with rfl | hi
            · refine ⟨ei0.1, fun he => ?_⟩
              exact le_of_eq (ei0.2 he.symm)
            · exact e4 i hi hiv
          · intro ma' hlt
            refine ⟨le_trans ei0.1 (le_of_lt hlt), fun he => ?_⟩
            have : dist cur j < ma' := lt_of_le_of_lt ei0.1 hlt
            rw [he] at this
            exact lt_irrefl _ this
        cases acc with
        | none =>
            rw [if_pos rfl] at hres
            obtain ⟨e1, e2, e3, e4, _⟩ := haccept hres
            refine ⟨e1, e2, Or.inr e3, e4, ?_⟩
            rintro ja ma h
            exact absurd h (by simp)
        | some p =>
            obtain ⟨ja, ma⟩ := p
            obtain ⟨hjav, hmad, hjalt⟩ := hacc ja ma rfl
            by_cases hd : dist cur i0 < ma
            · rw [if_pos (by simp [hd])] at hres
              obtain ⟨e1, e2, e3, e4, e5⟩ := haccept hres
              refine ⟨e1, e2, Or.inr e3, e4, ?_⟩
              rintro ja' ma' h
              rw [Option.some_inj, Prod.mk.injEq] at h
              obtain ⟨rfl, rfl⟩ := h
              have h5 := e5 ma hd
              exact ⟨h5.1, fun he => absurd he h5.2⟩
            · rw [if_neg (by simp [hd])] at hres
              obtain ⟨e1, e2, e3, e4, e5⟩ := ih hPis (some (ja, ma))
                (by
                  rintro ja' ma' h
                  rw [Option.some_inj, Prod.mk.injEq] at h
                  obtain ⟨rfl, rfl⟩ := h
                  exact ⟨hjav, hmad, fun i hi => hjalt i (List.mem_cons_of_mem _ hi)⟩)
                j m hres
              have eja := e5 ja ma rfl
              refine ⟨e1, e2, ?_, ?_, e5⟩
              · rcases e3 with h | h
                · exact Or.inl h
                · exact Or.inr (List.mem_cons_of_mem _ h)
              · intro i hi hiv
                rcases List.mem_cons.1 hi with rfl | hi
                · push_neg at hd
                  refine ⟨le_trans eja.1 hd, fun he => ?_⟩
                  have hd' : ma ≤ dist cur j := by rw [← he]; exact hd
                  have hma : dist cur j = ma := le_antisymm eja.1 hd'
                  have hjja : j = ja := eja.2 hma
                  rw [hjja]
                  exact le_of_lt (hjalt _ (List.mem_cons_self _ _))
                · exact e4 i hi hiv

lemma nearestUnvisited_eq_none (dist : ℕ → ℕ → ℚ) (cur : ℕ) (visited : List ℕ) (n : ℕ)
    (h : nearestUnvisited dist cur visited n = none) : ∀ i, i < n → i ∈ visited := by
  intro i hi
  have := (nearestGo_eq_none dist cur visited (List.range n) none).1
    (by simpa [nearestUnvisited] using h)
  exact this.2 i (List.mem_range.2 hi)

lemma optimizeRouteGo_succ (dist : ℕ → ℕ → ℚ) (n fuel cur : ℕ) (visited : List ℕ) :
    optimizeRouteGo dist n (fuel + 1) cur visited =
      match nearestUnvisited dist cur (visited ++ [cur]) n with
      | none => [cur]
      | some nxt => cur :: optimizeRouteGo dist n fuel nxt (visited ++ [cur]) := rfl

lemma optimizeRouteGo_succ_none (dist : ℕ → ℕ → ℚ) (n fuel cur : ℕ) (visited : List ℕ)
    (h : nearestUnvisited dist cur (visited ++ [cur]) n = none) :
    optimizeRouteGo dist n (fuel + 1) cur visited = [cur] := by
  rw [optimizeRouteGo_succ, h]

lemma optimizeRouteGo_succ_some (dist : ℕ → ℕ → ℚ) (n fuel cur nxt : ℕ) (visited : List ℕ)
    (h : nearestUnvisited dist cur (visited ++ [cur]) n = some nxt) :
    optimizeRouteGo dist n (fuel + 1) cur visited =
      cur :: optimizeRouteGo dist n fuel nxt (visited ++ [cur]) := by
  rw [optimizeRouteGo_succ, h]

lemma nearestUnvisited_spec (dist : ℕ → ℕ → ℚ) (cur : ℕ) (visited : List ℕ) (n : ℕ) (j : ℕ)
    (h : nearestUnvisited dist cur visited n = some j) :
    j < n ∧ j ∉ visited ∧ ∀ i, i < n → i ∉ visited →
      dist cur j ≤ dist cur i ∧ (dist cur i = dist cur j → j ≤ i) := by
  unfold nearestUnvisited at h
  cases hg : nearestGo dist cur visited (List.range n) none with
  | none => rw [hg] at h; simp at h
  | some p =>
      obtain ⟨j2, m⟩ := p
      rw [hg] at h
      have hj : j2 = j := by simpa using h
      subst hj
      obtain ⟨_, e2, e3, e4, _⟩ := nearestGo_spec dist cur visited (List.range n)
        (List.pairwise_lt_range n) none (by rintro ja ma ⟨⟩) j2 m hg
      refine ⟨?_, e2, fun i hi hiv => e4 i (List.mem_range.2 hi) hiv⟩
      rcases e3 with h | h
      · exact absurd h (by simp)
      · exact List.mem_range.1 h

lemma optimizeRouteGo_perm (dist : ℕ → ℕ → ℚ) (n : ℕ) :
    ∀ (fuel cur : ℕ) (visited : List ℕ),
      cur < n → cur ∉ visited →
      ((List.range n).filter (fun i => decide (i ∉ visited))).length ≤ fuel →
      (optimizeRouteGo dist n fuel cur visited).Perm
        ((List.range n).filter (fun i => decide (i ∉ visited))) := by
  intro fuel
  induction fuel with
  | zero =>
      intro cur visited hcur hcv hlen
      have hmem : cur ∈ (List.range n).filter (fun i => decide (i ∉ visited)) :=
        List.mem_filter.2 ⟨List.mem_range.2 hcur, by simp [hcv]⟩
      rw [List.length_eq_zero.1 (Nat.le_zero.1 hlen)] at hmem
      exact absurd hmem (List.not_mem_nil _)
  | succ fuel ih =>
      intro cur visited hcur hcv hlen
      have hU : ((List.range n).filter (fun i => decide (i ∉ visited))).Perm
          (cur :: ((List.range n).filter (fun i => decide (i ∉ (visited ++ [cur]))))) := by
        have hmem : cur ∈ (List.range n).filter (fun i => decide (i ∉ visited)) :=
          List.mem_filter.2 ⟨List.mem_range.2 hcur, by simp [hcv]⟩
        have hnd : ((List.range n).filter (fun i => decide (i ∉ visited))).Nodup :=
          (List.nodup_range n).filter _
        have herase : ((List.range n).filter (fun i => decide (i ∉ visited))).erase cur =
            (List.range n).filter (fun i => decide (i ∉ (visited ++ [cur]))) := by
          rw [hnd.erase_eq_filter, List.filter_filter]
          apply List.filter_congr
          intro x _
          by_cases hx : x = cur
          · subst hx; simp
          · simp [hx, List.mem_append]
        exact (List.perm_cons_erase hmem).trans (by rw [herase])
      rw [optimizeRouteGo_succ]
      cases hnu : nearestUnvisited dist cur (visited ++ [cur]) n with
      | none =>
          have hall := nearestUnvisited_eq_none dist cur (visited ++ [cur]) n hnu
          have hnil : (List.range n).filter (fun i => decide (i ∉ (visited ++ [cur]))) = [] := by
            rw [List.filter_eq_nil_iff]
            intro a ha
            simp only [decide_eq_true_eq, Decidable.not_not]
            exact hall a (List.mem_range.1 ha)
          rw [hnil] at hU
          exact (hU.symm)
      | some nxt =>
          obtain ⟨hn1, hn2, _⟩ := nearestUnvisited_spec dist cur (visited ++ [cur]) n nxt hnu
          have hlen2 : ((List.range n).filter (fun i => decide (i ∉ (visited ++ [cur])))).length ≤ fuel := by
            have := hU.length_eq
            simp only [List.length_cons] at this
            omega
          have hrec := ih nxt (visited ++ [cur]) hn1 hn2 hlen2
          exact (hrec.cons cur).trans hU.symm

lemma optimizeRouteIdx_perm (dist : ℕ → ℕ → ℚ) (n : ℕ) :
    (optimizeRouteIdx dist n).Perm (List.range n) := by
  cases n with
  | zero => simp [optimizeRouteIdx, optimizeRouteGo]
  | succ n =>
      have := optimizeRouteGo_perm dist (n + 1) (n + 1) 0 [] (Nat.succ_pos n)
        (List.not_mem_nil 0) (by simp)
      simpa using this

lemma optimizeRouteGo_getD_zero (dist : ℕ → ℕ → ℚ) (n fuel cur : ℕ) (visited : List ℕ) :
    (optimizeRouteGo dist n (fuel + 1) cur visited).getD 0 0 = cur := by
  rw [optimizeRouteGo_succ]
  cases hnu : nearestUnvisited dist cur (visited ++ [cur]) n <;> simp

lemma optimizeRouteGo_head (dist : ℕ → ℕ → ℚ) (n fuel cur : ℕ) (visited : List ℕ) :
    (optimizeRouteGo dist n (fuel + 1) cur visited).head? = some cur := by
  rw [optimizeRouteGo_succ]
  cases hnu : nearestUnvisited dist cur (visited ++ [cur]) n <;> simp

lemma optimizeRouteGo_step (dist : ℕ → ℕ → ℚ) (n : ℕ) :
    ∀ (fuel cur : ℕ) (visited : List ℕ) (k : ℕ),
      k + 1 < (optimizeRouteGo dist n fuel cur visited).length →
      ∀ i, i < n → i ∉ visited →
      i ∉ (optimizeRouteGo dist n fuel cur visited).take (k + 1) →
      dist ((optimizeRouteGo dist n fuel cur visited).getD k 0)
          ((optimizeRouteGo dist n fuel cur visited).getD (k + 1) 0) ≤
        dist ((optimizeRouteGo dist n fuel cur visited).getD k 0) i ∧
      (dist ((optimizeRouteGo dist n fuel cur visited).getD k 0) i =
          dist ((optimizeRouteGo dist n fuel cur visited).getD k 0)
            ((optimizeRouteGo dist n fuel cur visited).getD (k + 1) 0) →
        (optimizeRouteGo dist n fuel cur visited).getD (k + 1) 0 ≤ i) := by
  intro fuel
  induction fuel with
  | zero =>
      intro cur visited k hk
      simp [optimizeRouteGo] at hk
  | succ fuel ih =>
      intro cur visited k hk i hin hiv hitake
      cases hnu : nearestUnvisited dist cur (visited ++ [cur]) n with
      | none =>
          rw [optimizeRouteGo_succ_none dist n fuel cur visited hnu] at hk
          simp at hk
      | some nxt =>
          rw [optimizeRouteGo_succ_some dist n fuel cur nxt visited hnu] at hk hitake ⊢
          simp only [List.length_cons] at hk
          cases k with
          | zero =>
              have hr : 0 < (optimizeRouteGo dist n fuel nxt (visited ++ [cur])).length := by
                omega
              obtain ⟨fuel2, rfl⟩ : ∃ f2, fuel = f2 + 1 := by
                cases fuel with
                | zero => simp [optimizeRouteGo] at hr
                | succ f2 => exact ⟨f2, rfl⟩
              have hget0 : (optimizeRouteGo dist n (fuel2 + 1) nxt (visited ++ [cur])).getD 0 0 =
                  nxt := optimizeRouteGo_getD_zero dist n fuel2 nxt (visited ++ [cur])
              have hspec := nearestUnvisited_spec dist cur (visited ++ [cur]) n nxt hnu
              have hiv2 : i ∉ visited ++ [cur] := by
                simp only [List.take_succ_cons, List.take_zero] at hitake
                simp only [List.mem_append, List.mem_singleton]
                rintro (h | rfl)
                · exact hiv h
                · exact hitake (List.mem_singleton_self _)
              have hmain := hspec.2.2 i hin hiv2
              simp only [List.getD_cons_zero, List.getD_cons_succ]
              rw [hget0]
              exact hmain
          | succ k =>
              have hk2 : k + 1 < (optimizeRouteGo dist n fuel nxt (visited ++ [cur])).length := by
                omega
              have hiv2 : i ∉ visited ++ [cur] := by
                simp only [List.take_succ_cons] at hitake
                simp only [List.mem_append, List.mem_singleton]
                rintro (h | rfl)
                · exact hiv h
                · exact hitake (List.mem_cons_self _ _)
              have hitake2 : i ∉ (optimizeRouteGo dist n fuel nxt (visited ++ [cur])).take (k + 1) := by
                simp only [List.take_succ_cons] at hitake
                intro hmem
                exact hitake (List.mem_cons_of_mem _ hmem)
              have := ih nxt (visited ++ [cur]) k hk2 i hin hiv2 hitake2
              simp only [List.getD_cons_succ]
              exact this

lemma map_getD_range {α : Type} (l : List α) (d : α) :
    (List.range l.length).map (fun i => l.getD i d) = l := by
  apply List.ext_getElem
  · simp
  · intro n h1 h2
    simp only [List.getElem_map, List.getElem_range]
    exact List.getD_eq_getElem l d h2

/-- C3: for every distance function (in particular the haversine) and every
input list of places, the route sequencer's output is a permutation of its
input: the same multiset of places, none dropped, none duplicated. -/
theorem optimizeRoute_permutation (dist : Loc3 → Loc3 → ℚ) (locs : List Loc3) :
    (optimizeRoute dist locs).Perm locs := by
  unfold optimizeRoute
  by_cases h : locs.length ≤ 1
  · rw [if_pos h]
  · rw [if_neg h]
    have hperm := (optimizeRouteIdx_perm (distMatrix dist locs) locs.length).map
      (fun i => locs.getD i default)
    rw [map_getD_range locs default] at hperm
    exact hperm

/-- C4: the nearest-neighbour walk (over any distance function, in particular
the haversine matrix `distMatrix` used by `optimizeRoute`) starts at index 0,
and at each step the chosen next stop is at distance ≤ the distance to every
other unvisited stop, with ties broken in favour of the smallest index, i.e.
the first minimal-distance candidate in original input order. -/
theorem optimizeRoute_greedy (dist : ℕ → ℕ → ℚ) (n : ℕ) (hn : 0 < n) :
    (optimizeRouteIdx dist n).head? = some 0 ∧
    ∀ k, k + 1 < (optimizeRouteIdx dist n).length →
      ∀ i, i < n → i ∉ (optimizeRouteIdx dist n).take (k + 1) →
      dist ((optimizeRouteIdx dist n).getD k 0) ((optimizeRouteIdx dist n).getD (k + 1) 0) ≤
        dist ((optimizeRouteIdx dist n).getD k 0) i ∧
      (dist ((optimizeRouteIdx dist n).getD k 0) i =
          dist ((optimizeRouteIdx dist n).getD k 0) ((optimizeRouteIdx dist n).getD (k + 1) 0) →
        (optimizeRouteIdx dist n).getD (k + 1) 0 ≤ i) := by
  obtain ⟨m, rfl⟩ : ∃ m, n = m + 1 := ⟨n - 1, (Nat.succ_pred_eq_of_pos hn).symm⟩
  constructor
  · exact optimizeRouteGo_head dist (m + 1) m 0 []
  · intro k hk i hin hitake
    exact optimizeRouteGo_step dist (m + 1) (m + 1) 0 [] k hk i hin (List.not_mem_nil i) hitake

/-- Concrete distance function used by C4's witness. -/
def greedyWitnessDist : ℕ → ℕ → ℚ := fun i j => ((max i j - min i j : ℕ) : ℚ)

/-- Witness for C4 at a concrete distance function, `n = 3`, step `k = 1`,
candidate `i = 2`. -/
theorem optimizeRoute_greedy_witness :
    (0 : ℕ) < 3 ∧
    (optimizeRouteIdx greedyWitnessDist 3).head? = some 0 ∧
    (1 + 1 < (optimizeRouteIdx greedyWitnessDist 3).length ∧ (2 : ℕ) < 3 ∧
      2 ∉ (optimizeRouteIdx greedyWitnessDist 3).take 2) ∧
    (greedyWitnessDist ((optimizeRouteIdx greedyWitnessDist 3).getD 1 0)
        ((optimizeRouteIdx greedyWitnessDist 3).getD 2 0) ≤
      greedyWitnessDist ((optimizeRouteIdx greedyWitnessDist 3).getD 1 0) 2 ∧
      (greedyWitnessDist ((optimizeRouteIdx greedyWitnessDist 3).getD 1 0) 2 =
          greedyWitnessDist ((optimizeRouteIdx greedyWitnessDist 3).getD 1 0)
            ((optimizeRouteIdx greedyWitnessDist 3).getD 2 0) →
        (optimizeRouteIdx greedyWitnessDist 3).getD 2 0 ≤ 2)) :=
  ⟨by decide, (optimizeRoute_greedy greedyWitnessDist 3 (by decide)).1,
    ⟨by decide, by decide, by decide⟩,
    (optimizeRoute_greedy greedyWitnessDist 3 (by decide)).2 1 (by decide) 2 (by decide) (by decide)⟩

lemma getD_set_eq {α : Type} (cs : List α) (k c : ℕ) (v d : α) (hk : k < cs.length) :
    (cs.set k v).getD c d = if k = c then v else cs.getD c d := by
  by_cases h : k = c
  · subst h
    rw [if_pos rfl]
    exact List.getD_eq_getElem _ _ (by simpa using hk) |>.trans (by simp)
  · rw [if_neg h]
    by_cases hc : c < cs.length
    · rw [List.getD_eq_getElem _ _ (by simpa using hc), List.getD_eq_getElem _ _ hc]
      simp [List.getElem_set, h]
    · rw [List.getD_eq_default _ _ (by simpa using Nat.le_of_not_lt hc),
        List.getD_eq_default _ _ (Nat.le_of_not_lt hc)]

lemma clusterGo_length {α : Type} (d : ℕ) :
    ∀ (xs : List α) (i : ℕ) (cs : List (List α)),
      (clusterGo d xs i cs).length = cs.length := by
  intro xs
  induction xs with
  | nil => intro i cs; rfl
  | cons x xs ih =>
      intro i cs
      rw [clusterGo, ih]
      simp [clusterPush]

lemma clusterGo_getD {α : Type} (d : ℕ) (hd : 0 < d) :
    ∀ (xs : List α) (i : ℕ) (cs : List (List α)), cs.length = d →
      ∀ c, c < d →
        (clusterGo d xs i cs).getD c [] =
          cs.getD c [] ++ ((List.enumFrom i xs).filter (fun p => p.1 % d = c)).map Prod.snd := by
  intro xs
  induction xs with
  | nil => intro i cs _ c _; simp [clusterGo]
  | cons x xs ih =>
      intro i cs hlen c hc
      rw [clusterGo, ih _ (clusterPush d cs i x) (by simp [clusterPush, hlen]) c hc]
      rw [List.enumFrom_cons]
      by_cases h : i % d = c
      · rw [clusterPush, getD_set_eq _ _ _ _ _ (by rw [hlen]; exact h ▸ Nat.mod_lt i hd),
          if_pos h]
        rw [List.filter_cons_of_pos (by simpa using h)]
        simp [h]
      · rw [clusterPush, getD_set_eq _ _ _ _ _ (by rw [hlen]; exact Nat.mod_lt i hd),
          if_neg h]
        rw [List.filter_cons_of_neg (by simpa using h)]

lemma join_set_perm {α : Type} (cs : List (List α)) (k : ℕ) (x : α) (hk : k < cs.length) :
    ((cs.set k (cs.getD k [] ++ [x])).flatten).Perm (cs.flatten ++ [x]) := by
  induction cs generalizing k with
  | nil => simp at hk
  | cons c cs ih =>
      cases k with
      | zero =>
          simp only [List.set_cons_zero, List.getD_cons_zero, List.flatten_cons]
          rw [List.append_assoc, List.append_assoc]
          exact List.Perm.append_left c List.perm_append_comm
      | succ k =>
          simp only [List.set_cons_succ, List.getD_cons_succ, List.flatten_cons]
          have h2 := (ih k (by simpa using hk)).append_left c
          rw [List.append_assoc]
          exact h2

lemma clusterGo_flatten_perm {α : Type} (d : ℕ) (hd : 0 < d) :
    ∀ (xs : List α) (i : ℕ) (cs : List (List α)), cs.length = d →
      (clusterGo d xs i cs).flatten.Perm (cs.flatten ++ xs) := by
  intro xs
  induction xs with
  | nil => intro i cs _; simp [clusterGo]
  | cons x xs ih =>
      intro i cs hlen
      rw [clusterGo]
      have h1 := ih (i + 1) (clusterPush d cs i x) (by simp [clusterPush, hlen])
      have h2 : ((clusterPush d cs i x).flatten).Perm (cs.flatten ++ [x]) :=
        join_set_perm cs (i % d) x (by rw [hlen]; exact Nat.mod_lt i hd)
      refine h1.trans ?_
      refine (h2.append_right xs).trans ?_
      rw [List.append_assoc]
      refine List.Perm.append_left _ ?_
      simp

/-- C8: for every input list and every day count `d ≥ 1`, the clusterer
produces exactly `d` buckets; bucket `c` holds, in input order, exactly the
items whose input position is ≡ c (mod d); and the buckets partition the
input (their concatenation is a permutation of it). -/
theorem clusterLocations_partition {α : Type} (locs : List α) (d : ℕ) (hd : 0 < d) :
    (clusterLocations locs d).length = d ∧
    (∀ c, c < d → (clusterLocations locs d).getD c [] =
      ((locs.enum.filter (fun p => p.1 % d = c)).map Prod.snd)) ∧
    (clusterLocations locs d).flatten.Perm locs := by
  refine ⟨?_, ?_, ?_⟩
  · rw [clusterLocations, clusterGo_length]
    simp
  · intro c hc
    rw [clusterLocations, clusterGo_getD d hd locs 0 _ (by simp) c hc]
    rw [List.getD_eq_getElem _ _ (by simpa using hc)]
    simp [List.enum]
  · have := clusterGo_flatten_perm d hd locs 0 (List.replicate d []) (by simp)
    rw [clusterLocations]
    refine this.trans ?_
    simp

/-- Witness for C8 at a concrete three-element list and `d = 2`. -/
theorem clusterLocations_partition_witness :
    (0 : ℕ) < 2 ∧
    ((clusterLocations [10, 20, 30] 2).length = 2 ∧
    (∀ c, c < 2 → (clusterLocations ([10, 20, 30] : List ℕ) 2).getD c [] =
      (((List.enum [10, 20, 30]).filter (fun p => p.1 % 2 = c)).map Prod.snd)) ∧
    (clusterLocations ([10, 20, 30] : List ℕ) 2).flatten.Perm [10, 20, 30]) :=
  ⟨by decide, clusterLocations_partition [10, 20, 30] 2 (by decide)⟩


lemma enumFrom_snd_mem {α : Type} (n : ℕ) (l : List α) (p : ℕ × α)
    (h : p ∈ List.enumFrom n l) : p.2 ∈ l := by
  induction l generalizing n with
  | nil => simp [List.enumFrom] at h
  | cons x xs ih =>
      rw [List.enumFrom_cons] at h
      rcases List.mem_cons.1 h with rfl | h
      · exact List.mem_cons_self _ _
      · exact List.mem_cons_of_mem _ (ih (n + 1) h)

/-- C10: in the manual optimization path, the synthetic departure pseudo-place
(id `departure`) never appears in any returned day's `locations`, yet its
dwell time — `estimated_duration` defaulting to 60 minutes, scaled by the pace
multiplier — is still counted in day 0's `totalDuration`, and the travel time
from it to the next stop is counted in day 0's `totalTravelTime` (day 0's
totals are the totals of the routed list with the departure point prepended).
Hypotheses: at least one day, enough locations that day 0 has a stop after the
departure point, and no user location reuses the reserved id `departure`. -/
theorem optimizeItinerary_departure (dist : Loc3 → Loc3 → ℚ) (pace : String)
    (locations : List Loc3) (dn da : String) (lat lon : ℚ) (d : ℕ)
    (hd : 0 < d) (hlen : d ≤ locations.length)
    (hid : ∀ l ∈ locations, l.id ≠ "departure") :
    (∀ day ∈ optimizeItinerary dist pace locations dn da lat lon d,
      ∀ l ∈ day.locations, l.id ≠ "departure") ∧
    ((optimizeItinerary dist pace locations dn da lat lon d).getD 0 default).totalDuration =
      60 * getPaceMultiplier pace +
        sumDuration (getPaceMultiplier pace)
          ((optimizeItinerary dist pace locations dn da lat lon d).getD 0 default).locations ∧
    ((optimizeItinerary dist pace locations dn da lat lon d).getD 0 default).totalTravelTime =
      sumTravel dist (departureLoc dn da lat lon ::
        ((optimizeItinerary dist pace locations dn da lat lon d).getD 0 default).locations) := by
  refine ⟨?_, ?_⟩
  · intro day hday l hl
    rw [optimizeItinerary] at hday
    obtain ⟨p, _, rfl⟩ := List.mem_map.1 hday
    rw [optimizeDay] at hl
    simp only at hl
    have := List.of_mem_filter hl
    simpa using this
  obtain ⟨c0, crest, hcl⟩ : ∃ c0 crest,
      clusterLocations (departureLoc dn da lat lon :: locations) d = c0 :: crest := by
    cases h : clusterLocations (departureLoc dn da lat lon :: locations) d with
    | nil =>
        have hl := (clusterLocations_partition (departureLoc dn da lat lon :: locations) d hd).1
        rw [h] at hl
        simp at hl
        omega
    | cons a b => exact ⟨a, b, rfl⟩
  have hday0 : (optimizeItinerary dist pace locations dn da lat lon d).getD 0 default =
      optimizeDay dist (getPaceMultiplier pace) 0 c0 := by
    simp only [optimizeItinerary]
    rw [hcl]
    rfl
  -- characterize bucket 0: the departure point followed by every location at
  -- an input position ≡ 0 (mod d)
  have hc0 : c0 = departureLoc dn da lat lon ::
      ((List.enumFrom 1 locations).filter (fun p => p.1 % d = 0)).map Prod.snd := by
    have hch := (clusterLocations_partition (departureLoc dn da lat lon :: locations) d hd).2.1
      0 hd
    rw [hcl] at hch
    simp only [List.getD_cons_zero] at hch
    rw [hch]
    show (List.filter _ (List.enumFrom 0 (departureLoc dn da lat lon :: locations))).map _ = _
    rw [List.enumFrom_cons, List.filter_cons_of_pos (by simp)]
    rfl
  set rest := ((List.enumFrom 1 locations).filter (fun p => p.1 % d = 0)).map Prod.snd with hrest
  have hrestmem : ∀ x ∈ rest, x ∈ locations := by
    intro x hx
    rw [hrest] at hx
    obtain ⟨p, hp, rfl⟩ := List.mem_map.1 hx
    exact enumFrom_snd_mem 1 locations p (List.mem_of_mem_filter hp)
  have hrestne : rest ≠ [] := by
    have hdm : d - 1 < locations.length := by omega
    have hmem : ((1 + (d - 1), locations.get ⟨d - 1, hdm⟩) : ℕ × Loc3) ∈
        List.enumFrom 1 locations := by
      have hlen2 : d - 1 < (List.enumFrom 1 locations).length := by simpa using hdm
      have heq := List.getElem_enumFrom locations 1 (d - 1) hlen2
      rw [List.get_eq_getElem, ← heq]
      exact List.getElem_mem _
    have hmemf : ((1 + (d - 1), locations.get ⟨d - 1, hdm⟩) : ℕ × Loc3) ∈
        (List.enumFrom 1 locations).filter (fun p => p.1 % d = 0) := by
      apply List.mem_filter.2
      refine ⟨hmem, ?_⟩
      have : 1 + (d - 1) = d := by omega
      simp [this]
    rw [hrest]
    intro hnil
    rw [List.map_eq_nil_iff] at hnil
    rw [hnil] at hmemf
    exact absurd hmemf (List.not_mem_nil _)
  have hm : 2 ≤ c0.length := by
    rw [hc0]
    have := List.length_pos.2 hrestne
    simp only [List.length_cons]
    omega
  have hroute : optimizeRoute dist c0 =
      (optimizeRouteIdx (distMatrix dist c0) c0.length).map (fun i => c0.getD i default) := by
    rw [optimizeRoute, if_neg (by omega)]
  obtain ⟨m1, hm1⟩ : ∃ m1, c0.length = m1 + 1 := ⟨c0.length - 1, by omega⟩
  have hperm := optimizeRouteIdx_perm (distMatrix dist c0) c0.length
  have hnodup : (optimizeRouteIdx (distMatrix dist c0) c0.length).Nodup :=
    (hperm.nodup_iff).2 (List.nodup_range _)
  have hhead : (optimizeRouteIdx (distMatrix dist c0) c0.length).head? = some 0 := by
    rw [optimizeRouteIdx, hm1]
    exact optimizeRouteGo_head _ _ m1 0 []
  obtain ⟨idxs2, hidxs⟩ : ∃ t, optimizeRouteIdx (distMatrix dist c0) c0.length = 0 :: t := by
    cases h : optimizeRouteIdx (distMatrix dist c0) c0.length with
    | nil => rw [h] at hhead; simp at hhead
    | cons a t =>
        rw [h] at hhead
        simp at hhead
        exact ⟨t, by rw [hhead]⟩
  have hidxmem : ∀ i ∈ idxs2, 1 ≤ i ∧ i < c0.length := by
    intro i hi
    have himem : i ∈ List.range c0.length :=
      hperm.subset (by rw [hidxs]; exact List.mem_cons_of_mem _ hi)
    have hlt := List.mem_range.1 himem
    have hne : i ≠ 0 := by
      rw [hidxs] at hnodup
      rintro rfl
      exact (List.nodup_cons.1 hnodup).1 hi
    omega
  have hrouted : optimizeRoute dist c0 =
      departureLoc dn da lat lon :: idxs2.map (fun i => c0.getD i default) := by
    rw [hroute, hidxs, List.map_cons]
    congr 1
    rw [hc0]
    exact List.getD_cons_zero
  have htailmem : ∀ x ∈ idxs2.map (fun i => c0.getD i default), x ∈ rest := by
    intro x hx
    obtain ⟨i, hi, rfl⟩ := List.mem_map.1 hx
    obtain ⟨h1, h2⟩ := hidxmem i hi
    obtain ⟨i2, rfl⟩ : ∃ i2, i = i2 + 1 := ⟨i - 1, by omega⟩
    have hi2 : i2 < rest.length := by
      rw [hc0] at h2
      simp only [List.length_cons] at h2
      omega
    rw [hc0, List.getD_cons_succ, List.getD_eq_getElem _ _ hi2]
    exact List.getElem_mem _
  have htailid : ∀ x ∈ idxs2.map (fun i => c0.getD i default), x.id ≠ "departure" :=
    fun x hx => hid x (hrestmem x (htailmem x hx))
  have hfilter : (optimizeRoute dist c0).filter (fun l => l.id ≠ "departure") =
      idxs2.map (fun i => c0.getD i default) := by
    rw [hrouted, List.filter_cons_of_neg (by simp [departureLoc])]
    exact List.filter_eq_self.2 (fun a ha => by simpa using htailid a ha)
  have hL : ((optimizeItinerary dist pace locations dn da lat lon d).getD 0 default).locations =
      idxs2.map (fun i => c0.getD i default) := by
    rw [hday0]
    exact hfilter
  refine ⟨?_, ?_⟩
  · rw [hL, hday0]
    show sumDuration (getPaceMultiplier pace) (optimizeRoute dist c0) =
      60 * getPaceMultiplier pace +
        sumDuration (getPaceMultiplier pace) (idxs2.map (fun i => c0.getD i default))
    rw [hrouted]
    simp [sumDuration, departureLoc]
  · rw [hL, hday0]
    show sumTravel dist (optimizeRoute dist c0) =
      sumTravel dist (departureLoc dn da lat lon :: idxs2.map (fun i => c0.getD i default))
    rw [hrouted]

/-- Concrete distance function for C10's witness. -/
def depWitnessDist : Loc3 → Loc3 → ℚ := fun a b =>
  (a.latitude - b.latitude) * (a.latitude - b.latitude) +
    (a.longitude - b.longitude) * (a.longitude - b.longitude)

/-- Concrete place list for C10's witness. -/
def depWitnessLocs : List Loc3 :=
  [{ id := "p1", name := "Tower", address := "A St", latitude := 2, longitude := 0,
     day_index := 0, estimated_duration := some 90, rating := none, notes := none }]

/-- Witness for C10 at one location, one day, pace `relaxed`. -/
theorem optimizeItinerary_departure_witness :
    (0 < 1 ∧ 1 ≤ depWitnessLocs.length ∧ (∀ l ∈ depWitnessLocs, l.id ≠ "departure")) ∧
    ((∀ day ∈ optimizeItinerary depWitnessDist "relaxed" depWitnessLocs "Home" "H St" 0 0 1,
      ∀ l ∈ day.locations, l.id ≠ "departure") ∧
    ((optimizeItinerary depWitnessDist "relaxed" depWitnessLocs "Home" "H St" 0 0 1).getD 0
        default).totalDuration =
      60 * getPaceMultiplier "relaxed" +
        sumDuration (getPaceMultiplier "relaxed")
          ((optimizeItinerary depWitnessDist "relaxed" depWitnessLocs "Home" "H St" 0 0 1).getD 0
            default).locations ∧
    ((optimizeItinerary depWitnessDist "relaxed" depWitnessLocs "Home" "H St" 0 0 1).getD 0
        default).totalTravelTime =
      sumTravel depWitnessDist (departureLoc "Home" "H St" 0 0 ::
        ((optimizeItinerary depWitnessDist "relaxed" depWitnessLocs "Home" "H St" 0 0 1).getD 0
          default).locations)) :=
  ⟨⟨by decide, by decide, by decide⟩,
    optimizeItinerary_departure depWitnessDist "relaxed" depWitnessLocs "Home" "H St" 0 0 1
      (by decide) (by decide) (by decide)⟩

/-!  ## Model of src/unnamed/part_008: AI-response normalization  -/

deriving instance DecidableEq for Except

/-!  String helpers (ASCII models of the JavaScript string methods). -/

def lowerChars (s : List Char) : List Char := s.map Char.toLower

def toLowerStr (s : String) : String := ⟨s.data.map Char.toLower⟩

def isPrefixChars : List Char → List Char → Bool
  | [], _ => true
  | _ :: _, [] => false
  | a :: as, b :: bs => a = b && isPrefixChars as bs

def subChars (needle : List Char) : List Char → Bool
  | [] => needle.isEmpty
  | c :: t => isPrefixChars needle (c :: t) || subChars needle t

/-- JavaScript `hay.includes(needle)`. -/
def strIncludes (hay needle : String) : Bool := subChars needle.data hay.data

/-- JavaScript `hay.startsWith(needle)`. -/
def strStartsWith (hay needle : String) : Bool := isPrefixChars needle.data hay.data

/-- JavaScript whitespace class `\s` (ASCII part). -/
def jsWhite (c : Char) : Bool :=
  c = ' ' || c = '\t' || c = '\n' || c = '\r' || c = '\x0b' || c = '\x0c'

/-- JavaScript `s.trim()` (ASCII whitespace), on the character list so that it
evaluates by kernel reduction. -/
def jsTrim (s : String) : String :=
  ⟨((s.data.dropWhile jsWhite).reverse.dropWhile jsWhite).reverse⟩

def digitsToNat (ds : List Char) : ℕ :=
  ds.foldl (fun acc c => acc * 10 + (c.toNat - 48)) 0

def decimalVal (ip fp : List Char) : ℚ :=
  (digitsToNat ip : ℚ) + (digitsToNat fp : ℚ) / ((10 : ℚ) ^ fp.length)

/-!  ## Parsed JSON values and the entry validation of `cleanAndParseResponse` -/

/-- A JSON value as produced by `JSON.parse`.  `undefined` (absent property)
and `null` are merged into `.null`: every use below treats them alike. -/
inductive JVal where
  | null
  | bool (b : Bool)
  | num (q : ℚ)
  | str (s : String)
  | arr (elems : List JVal)
  | obj (fields : List (String × JVal))

/-- JavaScript property access `v[key]`: last duplicate key wins (as in
`JSON.parse`); access on non-objects yields undefined (`.null`). -/
def objGet (v : JVal) (key : String) : JVal :=
  match v with
  | .obj fields =>
      match fields.reverse.find? (fun p => p.1 = key) with
      | some p => p.2
      | none => .null
  | _ => .null

/-- JavaScript truthiness of a parsed JSON value. -/
def jTruthy : JVal → Bool
  | .null => false
  | .bool b => b
  | .num q => decide (q ≠ 0)
  | .str s => decide (s ≠ "")
  | .arr _ => true
  | .obj _ => true

/-- The `Location` union of src/unnamed/part_008 (lines 3-29): hotels carry
none of the timing fields, attractions carry all three. -/
structure Loc8 where
  name : String
  description : String
  dayIndex : ℚ
  address : String
  isStartingPoint : Bool
  isHotel : Bool
  estimatedDuration : Option ℚ
  bestTimeToVisit : Option String
  travelTimeToNext : Option ℚ
deriving DecidableEq, Inhabited

/-- Leftmost match of `/(\d+(?:\.\d+)?)\s*(?:km|kilometers?)/i`, returning the
parsed distance. -/
def kmScan : List Char → Option ℚ
  | [] => none
  | c :: rest =>
      if c.isDigit then
        let ds := (c :: rest).takeWhile Char.isDigit
        let r1 := (c :: rest).dropWhile Char.isDigit
        let fr2 :=
          match r1 with
          | '.' :: r1' =>
              let fs := r1'.takeWhile Char.isDigit
              if fs = [] then (([] : List Char), r1) else (fs, r1'.dropWhile Char.isDigit)
          | _ => (([] : List Char), r1)
        let r3 := fr2.2.dropWhile jsWhite
        if isPrefixChars "km".data (lowerChars (r3.take 2)) ||
            isPrefixChars "kilometer".data (lowerChars (r3.take 9)) then
          some (decimalVal ds fr2.1)
        else kmScan rest
      else kmScan rest

/-- Leftmost match of `/(\d+)/` with `parseInt`. -/
def firstDigitRun : List Char → Option ℕ
  | [] => none
  | c :: rest =>
      if c.isDigit then some (digitsToNat ((c :: rest).takeWhile Char.isDigit))
      else firstDigitRun rest

/-- `getBaseTravelTime` (src/unnamed/part_008, lines 305-341): numbers pass
through; otherwise a distance hint in the description drives the 15/25/45
buckets; otherwise strings are mined for digits or short/long keywords;
otherwise the medium default 25. -/
def getBaseTravelTime (travelTime : JVal) (description : Option String) : ℚ :=
  match travelTime with
  | .num q => q
  | _ =>
    match description.bind (fun d => kmScan d.data) with
    | some distance =>
        if distance < 2 then 15 else if distance ≤ 5 then 25 else 45
    | none =>
      match travelTime with
      | .str s =>
          match firstDigitRun s.data with
          | some v => (v : ℚ)
          | none =>
              if strIncludes (toLowerStr s) "short" || strIncludes (toLowerStr s) "nearby" then 15
              else if strIncludes (toLowerStr s) "long" || strIncludes (toLowerStr s) "far" then 45
              else 25
      | _ => 25

/-- `isRushHour` (lines 356-372). -/
def isRushHour (timeStr : String) : Bool :=
  if timeStr = "" then false
  else
    (strIncludes (toLowerStr timeStr) "8:" || strIncludes (toLowerStr timeStr) "9:" ||
      strIncludes (toLowerStr timeStr) "8 am" || strIncludes (toLowerStr timeStr) "9 am") ||
    (strIncludes (toLowerStr timeStr) "4:" || strIncludes (toLowerStr timeStr) "5:" ||
      strIncludes (toLowerStr timeStr) "6:" || strIncludes (toLowerStr timeStr) "4 pm" ||
      strIncludes (toLowerStr timeStr) "5 pm" || strIncludes (toLowerStr timeStr) "6 pm")

/-- `calculateExactTravelTime` (lines 344-353): 40% rush-hour increase, then
`Math.round`. -/
def calculateExactTravelTime (base : ℚ) (rush : Bool) : ℚ :=
  ((jsRound (if rush then base * (14/10) else base) : ℤ) : ℚ)

/-- Extract an optional string field; a present non-string value would make
the source's `.trim()`/`.toLowerCase()` call throw a `TypeError` (message
simplified), which the enclosing `catch` rewraps. -/
def jStrField (item : JVal) (key : String) : Except String (Option String) :=
  match objGet item key with
  | .null => .ok none
  | .str s => .ok (some s)
  | _ => .error ("item." ++ key ++ " is not a string")

/-- One element of the first validation pass of `cleanAndParseResponse`
(lines 221-263): require a truthy `name` and numeric `dayIndex`, classify by
the `[HOTEL]` name prefix, and for attractions clamp `estimatedDuration` to
[30, 480] (default 120) and the recomputed travel time to [5, 180]. -/
def validateEntry (index : ℕ) (item : JVal) : Except String Loc8 :=
  if !(jTruthy (objGet item "name")) then
    .error ("Invalid location data at index " ++ toString index ++ ": missing required fields")
  else
    match objGet item "dayIndex" with
    | .num dq =>
        (match objGet item "name" with
         | .str nm =>
             (match jStrField item "description", jStrField item "address" with
              | .ok descOpt, .ok addrOpt =>
                  if strStartsWith (toLowerStr nm) "[hotel]" then
                    .ok { name := jsTrim nm,
                          description := (match descOpt with | some s => jsTrim s | none => ""),
                          dayIndex := dq,
                          address := (match addrOpt with | some s => jsTrim s | none => ""),
                          isStartingPoint := jTruthy (objGet item "isStartingPoint"),
                          isHotel := true,
                          estimatedDuration := none, bestTimeToVisit := none,
                          travelTimeToNext := none }
                  else
                    (match jStrField item "bestTimeToVisit" with
                     | .ok bestOpt =>
                        .ok { name := jsTrim nm,
                              description := (match descOpt with | some s => jsTrim s | none => ""),
                              dayIndex := dq,
                              address := (match addrOpt with | some s => jsTrim s | none => ""),
                              isStartingPoint := jTruthy (objGet item "isStartingPoint"),
                              isHotel := false,
                              estimatedDuration := some
                                (match objGet item "estimatedDuration" with
                                 | .num e => max 30 (min 480 e)
                                 | _ => 120),
                              bestTimeToVisit := some
                                (match bestOpt with | some s => jsTrim s | none => ""),
                              travelTimeToNext := some (max 5 (min 180
                                (calculateExactTravelTime
                                  (getBaseTravelTime (objGet item "travelTimeToNext") descOpt)
                                  (isRushHour
                                    (match bestOpt with
                                     | some s => toLowerStr s
                                     | none => ""))))) }
                     | .error e => .error e)
              | .error e, _ => .error e
              | _, .error e => .error e)
         | _ => .error "item.name.toLowerCase is not a function")
    | _ => .error ("Invalid location data at index " ++ toString index ++
        ": missing required fields")

/-- The `hotelsByDay` map of the second pass: for each raw `dayIndex`, the
index of the last hotel seen. -/
def lastHotelIdx (locs : List Loc8) (d : ℚ) : Option ℕ :=
  locs.enum.foldl
    (fun acc p => if p.2.isHotel && decide (p.2.dayIndex = d) then some p.1 else acc) none

/-- The duplicate-hotel filter (lines 277-283): keep non-hotels, and keep a
hotel only if its position is the last hotel position for its raw day. -/
def dedupeHotels (locs : List Loc8) : List Loc8 :=
  (locs.enum.filter
    (fun p => !p.2.isHotel || decide (lastHotelIdx locs p.2.dayIndex = some p.1))).map Prod.snd

def validateAll : ℕ → List JVal → Except String (List Loc8)
  | _, [] => .ok []
  | i, v :: rest => do
      let l ← validateEntry i v
      let ls ← validateAll (i + 1) rest
      pure (l :: ls)

/-- The post-parse part of `cleanAndParseResponse`: reject the empty array,
validate every element in order, then drop duplicate hotels. -/
def normalizeParsed (items : List JVal) : Except String (List Loc8) :=
  if items.isEmpty then .error "Empty array returned from AI service"
  else (validateAll 0 items).map dedupeHotels

/-!  ## The per-attempt processing of `generateItinerary` (lines 489-577) -/

inductive Pace where
  | relaxed
  | balanced
  | intensive
deriving DecidableEq

/-- The `paceMultiplier` object literal of `generateItinerary` (lines 387-391). -/
def paceMultiplierObj : Pace → ℚ
  | .relaxed => 7/10
  | .balanced => 1
  | .intensive => 13/10

/-- The synthetic starting location prepended when the first parsed entry does
not reference the start point (lines 492-505). -/
def startingLocation (startPoint : String) : Loc8 :=
  { name := startPoint, address := startPoint,
    description := "Starting point of the journey.",
    estimatedDuration := some 30, travelTimeToNext := some 0,
    bestTimeToVisit := some "morning",
    dayIndex := 0, isStartingPoint := true, isHotel := false }

/-- The `unshift` guard: prepend the synthetic start unless the first entry's
name contains the start point (case-insensitively). -/
def ensureStart (startPoint : String) (parsed : List Loc8) : List Loc8 :=
  match parsed with
  | [] => [startingLocation startPoint]
  | l :: _ =>
      if strIncludes (toLowerStr l.name) (toLowerStr startPoint) then parsed
      else startingLocation startPoint :: parsed

/-- Truncation toward zero, as JavaScript's ToIntegerOrInfinity used by
`Date.prototype.setHours`. -/
def jsTrunc (q : ℚ) : ℤ := q.num.tdiv (q.den : ℤ)

/-- Simplified JavaScript `Number()` on a string: trimmed; empty → 0; optional
sign, decimal digits, optional fraction; anything else → NaN (`none`).
Exponents and hex are not modelled (irrelevant to the HH:MM strings this path
handles). -/
def jsParseNumber (s : List Char) : Option ℚ :=
  let t := ((s.dropWhile jsWhite).reverse.dropWhile jsWhite).reverse
  if t = [] then some 0
  else
    let st :=
      match t with
      | '-' :: r => ((-1 : ℚ), r)
      | '+' :: r => ((1 : ℚ), r)
      | _ => ((1 : ℚ), t)
    let ip := st.2.takeWhile Char.isDigit
    let r1 := st.2.dropWhile Char.isDigit
    match r1 with
    | [] => if ip = [] then none else some (st.1 * digitsToNat ip)
    | '.' :: r2 =>
        let fp := r2.takeWhile Char.isDigit
        let r3 := r2.dropWhile Char.isDigit
        if r3 = [] ∧ (ip ≠ [] ∨ fp ≠ []) then some (st.1 * decimalVal ip fp) else none
    | _ => none

/-- `format(new Date().setHours(h, m), 'h:mm a')` from date-fns, as pure
arithmetic: minutes overflow into hours, hours wrap mod 24, 12-hour display
with a zero-padded minute and AM/PM. -/
def jsSetHoursFormat (hq mq : ℚ) : String :=
  let total := jsTrunc hq * 60 + jsTrunc mq
  let minute := total.emod 60
  let hour24 := ((total - minute).tdiv 60).emod 24
  let hour12 := if hour24 % 12 = 0 then 12 else hour24 % 12
  toString hour12 ++ ":" ++ (if minute < 10 then "0" else "") ++ toString minute ++
    (if hour24 < 12 then " AM" else " PM")

/-- The `bestTimeToVisit` normalization of the `processedResponse` map
(lines 526-534): lowercase; if it contains a colon, reformat via
`setHours`/`format`, falling back to the original string when `Number`
yields NaN (format throws, the `catch` restores the original). -/
def processBestTime (bt : String) : String :=
  let lowered := toLowerStr bt
  if strIncludes lowered ":" then
    let parts := List.splitOn ':' lowered.data
    match jsParseNumber (parts.getD 0 []) with
    | none => bt
    | some h => jsSetHoursFormat h ((jsParseNumber (parts.getD 1 [])).getD 0)
  else lowered

/-- `Math.max(0, Math.min(duration - 1, dayIndex))`. -/
def clampDay (duration : ℕ) (q : ℚ) : ℚ := max 0 (min ((duration : ℚ) - 1) q)

/-- One element of the `processedResponse` map (lines 508-550): clamp the day
index, recompute `isStartingPoint` from the name, and for attractions rescale
the duration by the pace multiplier and recompute the travel time (0 for the
final element). -/
def processLoc (startPoint : String) (duration : ℕ) (pace : Pace) (n index : ℕ)
    (location : Loc8) : Loc8 :=
  let isStart := strIncludes (toLowerStr location.name) (toLowerStr startPoint)
  if location.isHotel then
    { name := location.name, description := location.description,
      dayIndex := clampDay duration location.dayIndex, address := location.address,
      isStartingPoint := isStart, isHotel := true,
      estimatedDuration := none, bestTimeToVisit := none, travelTimeToNext := none }
  else
    let formattedTime := location.bestTimeToVisit.map processBestTime
    let baseTime := getBaseTravelTime
      (match location.travelTimeToNext with
       | some q => JVal.num q
       | none => JVal.null)
      (some location.description)
    let exact := calculateExactTravelTime baseTime (isRushHour (formattedTime.getD ""))
    let ed : ℚ := match location.estimatedDuration with
      | some e => if e = 0 then 120 else e
      | none => 120
    { name := location.name, description := location.description,
      dayIndex := clampDay duration location.dayIndex, address := location.address,
      isStartingPoint := isStart, isHotel := false,
      estimatedDuration := some ((jsRound (ed * paceMultiplierObj pace) : ℤ) : ℚ),
      bestTimeToVisit := some (formattedTime.getD ""),
      travelTimeToNext := some (if index < n - 1 then exact else 0) }

/-- Model of `localeCompare`: lexicographic codepoint comparison returning
-1/0/1 (`localeCompare` is locale-dependent; the default codepoint order is
used). -/
def strCmpQ : List Char → List Char → ℚ
  | [], [] => 0
  | [], _ :: _ => -1
  | _ :: _, [] => 1
  | a :: as, b :: bs => if a < b then -1 else if b < a then 1 else strCmpQ as bs

def endMatch (endPoint : String) (l : Loc8) : Bool :=
  strIncludes (toLowerStr l.name) (toLowerStr endPoint)

/-- The sort comparator of `generateItinerary` (lines 553-577): by day, then
start point first on day 0, end point last on the last day, hotels after
attractions on days before the last, then `localeCompare` of the best-time
strings. -/
def cmpLoc (endPoint : String) (duration : ℕ) (a b : Loc8) : ℚ :=
  if a.dayIndex ≠ b.dayIndex then a.dayIndex - b.dayIndex
  else if a.dayIndex = 0 ∧ a.isStartingPoint = true then -1
  else if a.dayIndex = 0 ∧ b.isStartingPoint = true then 1
  else if a.dayIndex ≠ 0 ∧ a.dayIndex = (duration : ℚ) - 1 ∧ endMatch endPoint a = true then 1
  else if a.dayIndex ≠ 0 ∧ a.dayIndex = (duration : ℚ) - 1 ∧ endMatch endPoint b = true then -1
  else if a.dayIndex < (duration : ℚ) - 1 ∧ a.isHotel = true ∧ b.isHotel = false then 1
  else if a.dayIndex < (duration : ℚ) - 1 ∧ a.isHotel = false ∧ b.isHotel = true then -1
  else strCmpQ (a.bestTimeToVisit.getD "").data (b.bestTimeToVisit.getD "").data

/-- Stable merge used to model `Array.prototype.sort` (ECMAScript sorts are
stable; an element goes before another iff the comparator is ≤ 0).  The fuel
makes the recursion structural so that concrete runs reduce in the kernel;
fuel `l.length + r.length` is exact. -/
def jsMergeGo {α : Type} (c : α → α → ℚ) : ℕ → List α → List α → List α
  | 0, l, r => l ++ r
  | _ + 1, [], r => r
  | _ + 1, l, [] => l
  | fuel + 1, a :: as, b :: bs =>
      if c a b ≤ 0 then a :: jsMergeGo c fuel as (b :: bs)
      else b :: jsMergeGo c fuel (a :: as) bs

def jsMerge {α : Type} (c : α → α → ℚ) (l r : List α) : List α :=
  jsMergeGo c (l.length + r.length) l r

/-- Stable merge sort modelling `Array.prototype.sort` with comparator `c`
(fuel-structural; fuel `l.length` covers the recursion depth). -/
def mergeSortGo {α : Type} (c : α → α → ℚ) : ℕ → List α → List α
  | 0, l => l
  | fuel + 1, l =>
      if l.length ≤ 1 then l
      else
        jsMerge c (mergeSortGo c fuel (l.take (l.length / 2)))
          (mergeSortGo c fuel (l.drop (l.length / 2)))

def mergeSortBy {α : Type} (c : α → α → ℚ) (l : List α) : List α :=
  mergeSortGo c l.length l

/-- The successful-attempt processing of `generateItinerary` on an already
parsed and validated response: ensure the start point leads, process every
location, and sort. -/
def processAttempt (startPoint endPoint : String) (duration : ℕ) (pace : Pace)
    (parsed : List Loc8) : List Loc8 :=
  let arr := ensureStart startPoint parsed
  mergeSortBy (cmpLoc endPoint duration)
    (arr.enum.map (fun p => processLoc startPoint duration pace arr.length p.1 p.2))

/-- One full successful attempt of `generateItinerary`, from the parsed JSON
array to the returned location list. -/
def attemptProcess (startPoint endPoint : String) (duration : ℕ) (pace : Pace)
    (items : List JVal) : Except String (List Loc8) :=
  (normalizeParsed items).map (processAttempt startPoint endPoint duration pace)

lemma mem_dedupeHotels {l : Loc8} {locs : List Loc8} (h : l ∈ dedupeHotels locs) :
    l ∈ locs := by
  rw [dedupeHotels] at h
  obtain ⟨p, hp, rfl⟩ := List.mem_map.1 h
  have hpe : p ∈ locs.enum := List.mem_of_mem_filter hp
  have : p ∈ List.enumFrom 0 locs := hpe
  exact enumFrom_snd_mem 0 locs p this

lemma validateAll_mem :
    ∀ (items : List JVal) (i : ℕ) (locs : List Loc8),
      validateAll i items = Except.ok locs →
      ∀ l ∈ locs, ∃ k v, v ∈ items ∧ validateEntry k v = Except.ok l := by
  intro items
  induction items with
  | nil =>
      intro i locs h l hl
      rw [validateAll] at h
      cases h
      exact absurd hl (List.not_mem_nil _)
  | cons v rest ih =>
      intro i locs h l hl
      rw [validateAll] at h
      cases hv : validateEntry i v with
      | error e =>
          rw [hv] at h
          have h2 : (Except.error e : Except String (List Loc8)) = Except.ok locs := h
          cases h2
      | ok l0 =>
          rw [hv] at h
          cases hr : validateAll (i + 1) rest with
          | error e =>
              rw [hr] at h
              have h2 : (Except.error e : Except String (List Loc8)) = Except.ok locs := h
              cases h2
          | ok ls =>
              rw [hr] at h
              have h2 : (Except.ok (l0 :: ls) : Except String (List Loc8)) = Except.ok locs := h
              cases h2
              rcases List.mem_cons.1 hl with rfl | hl
              · exact ⟨i, v, List.mem_cons_self _ _, hv⟩
              · obtain ⟨k, v2, hv2, hval⟩ := ih (i + 1) ls hr l hl
                exact ⟨k, v2, List.mem_cons_of_mem _ hv2, hval⟩

set_option maxHeartbeats 1600000 in
lemma validateEntry_ok_attraction {k : ℕ} {v : JVal} {l : Loc8}
    (h : validateEntry k v = Except.ok l) (hnh : l.isHotel = false) :
    (∃ e, l.estimatedDuration = some e ∧ 30 ≤ e ∧ e ≤ 480) ∧
    (∃ t, l.travelTimeToNext = some t ∧ 5 ≤ t ∧ t ≤ 180) := by
  rw [validateEntry] at h
  split at h
  · cases h
  · split at h
    · split at h
      · split at h
        · split at h
          · -- hotel branch
            cases h
            simp at hnh
          · split at h
            · cases h
              constructor
              · refine ⟨_, rfl, ?_, ?_⟩
                · split
                  · exact le_max_left _ _
                  · norm_num
                · split
                  · exact max_le (by norm_num) (min_le_left _ _)
                  · norm_num
              · exact ⟨_, rfl, le_max_left _ _, max_le (by norm_num) (min_le_left _ _)⟩
            · cases h
        · cases h
        · cases h
      · cases h
    · cases h

/-- C2 amended: after the normalizer proper (`cleanAndParseResponse`'s
validation pass, `normalizeParsed`), every Attraction entry satisfies
`30 ≤ estimatedDuration ≤ 480` and `5 ≤ travelTimeToNext ≤ 180`, regardless
of missing, non-numeric or out-of-range model input.  (The claim as stated
over `generateItinerary`'s final output is false: see the counterexample —
the subsequent pace rescaling and travel-time recomputation leave the
ranges.) -/
theorem normalizeParsed_clamped (items : List JVal) (locs : List Loc8)
    (hok : normalizeParsed items = Except.ok locs) :
    ∀ l ∈ locs, l.isHotel = false →
      (∃ e, l.estimatedDuration = some e ∧ 30 ≤ e ∧ e ≤ 480) ∧
      (∃ t, l.travelTimeToNext = some t ∧ 5 ≤ t ∧ t ≤ 180) := by
  intro l hl hnh
  rw [normalizeParsed] at hok
  split at hok
  · cases hok
  · cases hv : validateAll 0 items with
    | error e =>
        rw [hv] at hok
        have h2 : (Except.error e : Except String (List Loc8)) = Except.ok locs := hok
        cases h2
    | ok pre =>
        rw [hv] at hok
        have h2 : (Except.ok (dedupeHotels pre) : Except String (List Loc8)) =
          Except.ok locs := hok
        rw [Except.ok.injEq] at h2
        subst h2
        obtain ⟨k, v, _, hval⟩ := validateAll_mem items 0 pre hv l (mem_dedupeHotels hl)
        exact validateEntry_ok_attraction hval hnh

/-- Concrete parsed input for C2's witness: out-of-range duration 9999. -/
def c2WitnessItems : List JVal :=
  [JVal.obj [("name", JVal.str "Louvre"), ("dayIndex", JVal.num 0),
    ("estimatedDuration", JVal.num 9999)]]

/-- The normalizer's output on `c2WitnessItems`. -/
def c2WitnessOut : List Loc8 :=
  [{ name := "Louvre", description := "", dayIndex := 0, address := "",
     isStartingPoint := false, isHotel := false, estimatedDuration := some 480,
     bestTimeToVisit := some "", travelTimeToNext := some 25 }]

unseal Rat.add Rat.mul Rat.inv Rat.sub in
/-- Witness for C2's amended theorem at a concrete malformed input. -/
theorem normalizeParsed_clamped_witness :
    normalizeParsed c2WitnessItems = Except.ok c2WitnessOut ∧
    (∀ l ∈ c2WitnessOut, l.isHotel = false →
      (∃ e, l.estimatedDuration = some e ∧ 30 ≤ e ∧ e ≤ 480) ∧
      (∃ t, l.travelTimeToNext = some t ∧ 5 ≤ t ∧ t ≤ 180)) :=
  ⟨by decide, normalizeParsed_clamped c2WitnessItems c2WitnessOut (by decide)⟩

/-- Concrete parsed input for C2's counterexample. -/
def c2CexItems : List JVal :=
  [JVal.obj [("name", JVal.str "paris tower"), ("dayIndex", JVal.num 0)]]

/-- The final output of the attempt on `c2CexItems`. -/
def c2CexOut : Loc8 :=
  { name := "paris tower", description := "", dayIndex := 0, address := "",
    isStartingPoint := true, isHotel := false, estimatedDuration := some 120,
    bestTimeToVisit := some "", travelTimeToNext := some 0 }

unseal Rat.add Rat.mul Rat.inv Rat.sub in
/-- C2 counterexample: in `generateItinerary`'s final output the claim fails —
the last entry's `travelTimeToNext` is recomputed to 0, below the claimed
lower bound 5 (likewise, pace `relaxed`/`intensive` rescales durations out of
[30, 480]). -/
theorem attemptProcess_clamp_violated :
    attemptProcess "paris" "nice" 1 Pace.balanced c2CexItems = Except.ok [c2CexOut] ∧
    c2CexOut.isHotel = false ∧ c2CexOut.travelTimeToNext = some 0 ∧ ¬ ((5 : ℚ) ≤ 0) :=
  ⟨by decide, rfl, rfl, by norm_num⟩

lemma jsMergeGo_perm {α : Type} (c : α → α → ℚ) :
    ∀ (fuel : ℕ) (l r : List α), (jsMergeGo c fuel l r).Perm (l ++ r) := by
  intro fuel
  induction fuel with
  | zero => intro l r; exact List.Perm.refl _
  | succ fuel ih =>
      intro l r
      match l, r with
      | [], r => simp [jsMergeGo]
      | a :: as, [] => simp [jsMergeGo]
      | a :: as, b :: bs =>
          rw [jsMergeGo]
          by_cases h : c a b ≤ 0
          · rw [if_pos h]
            exact ((ih as (b :: bs)).cons a)
          · rw [if_neg h]
            refine ((ih (a :: as) bs).cons b).trans ?_
            exact (List.perm_middle).symm

lemma jsMerge_perm {α : Type} (c : α → α → ℚ) (l r : List α) :
    (jsMerge c l r).Perm (l ++ r) := jsMergeGo_perm c _ l r

lemma mergeSortGo_perm {α : Type} (c : α → α → ℚ) :
    ∀ (fuel : ℕ) (l : List α), (mergeSortGo c fuel l).Perm l := by
  intro fuel
  induction fuel with
  | zero => intro l; exact List.Perm.refl _
  | succ fuel ih =>
      intro l
      rw [mergeSortGo]
      by_cases h : l.length ≤ 1
      · rw [if_pos h]
      · rw [if_neg h]
        refine (jsMerge_perm c _ _).trans ?_
        refine ((ih _).append (ih _)).trans ?_
        rw [List.take_append_drop]

lemma mergeSortBy_perm {α : Type} (c : α → α → ℚ) (l : List α) :
    (mergeSortBy c l).Perm l := mergeSortGo_perm c l.length l

lemma jsMergeGo_pairwise {α : Type} (c : α → α → ℚ)
    (htrans : ∀ a b d : α, c a b ≤ 0 → c b d ≤ 0 → c a d ≤ 0) :
    ∀ (fuel : ℕ) (l r : List α), l.length + r.length ≤ fuel →
      List.Pairwise (fun a b => c a b ≤ 0) l →
      List.Pairwise (fun a b => c a b ≤ 0) r →
      List.Pairwise (fun a b => c a b ≤ 0 ∨ c b a ≤ 0) (l ++ r) →
      List.Pairwise (fun a b => c a b ≤ 0) (jsMergeGo c fuel l r) := by
  intro fuel
  induction fuel with
  | zero =>
      intro l r hlen hl hr htot
      have : l = [] ∧ r = [] := by
        constructor <;> [skip; skip] <;>
          · cases l <;> cases r <;> simp_all
      obtain ⟨rfl, rfl⟩ := this
      simp [jsMergeGo]
  | succ fuel ih =>
      intro l r hlen hl hr htot
      match l, r with
      | [], r => simpa [jsMergeGo] using hr
      | a :: as, [] => simpa [jsMergeGo] using hl
      | a :: as, b :: bs =>
          rw [jsMergeGo]
          have htot' := htot
          rw [List.cons_append, List.pairwise_cons] at htot'
          obtain ⟨htota, htotrest⟩ := htot'
          obtain ⟨hla, hlas⟩ := List.pairwise_cons.1 hl
          obtain ⟨hrb, hrbs⟩ := List.pairwise_cons.1 hr
          by_cases h : c a b ≤ 0
          · rw [if_pos h]
            rw [List.pairwise_cons]
            constructor
            · intro x hx
              have hx2 : x ∈ as ++ b :: bs := ((jsMergeGo_perm c fuel as (b :: bs)).mem_iff).1 hx
              rcases List.mem_append.1 hx2 with hx3 | hx3
              · exact hla x hx3
              · rcases List.mem_cons.1 hx3 with rfl | hx4
                · exact h
                · exact htrans a b x h (hrb x hx4)
            · refine ih as (b :: bs) (by simp at hlen ⊢; omega) hlas hr ?_
              exact htotrest
          · rw [if_neg h]
            have hba : c b a ≤ 0 := by
              rcases htota b (by simp) with h1 | h1
              · exact absurd h1 h
              · exact h1
            rw [List.pairwise_cons]
            constructor
            · intro x hx
              have hx2 : x ∈ (a :: as) ++ bs := ((jsMergeGo_perm c fuel (a :: as) bs).mem_iff).1 hx
              rcases List.mem_append.1 hx2 with hx3 | hx3
              · rcases List.mem_cons.1 hx3 with rfl | hx4
                · exact hba
                · exact htrans b a x hba (hla x hx4)
              · exact hrb x hx3
            · refine ih (a :: as) bs (by simp at hlen ⊢; omega) hl hrbs ?_
              refine List.Pairwise.sublist ?_ htot
              exact List.Sublist.append_left (List.sublist_cons_self b bs) (a :: as)

lemma mergeSortGo_pairwise {α : Type} (c : α → α → ℚ)
    (htrans : ∀ a b d : α, c a b ≤ 0 → c b d ≤ 0 → c a d ≤ 0) :
    ∀ (fuel : ℕ) (l : List α), l.length ≤ fuel →
      List.Pairwise (fun a b => c a b ≤ 0 ∨ c b a ≤ 0) l →
      List.Pairwise (fun a b => c a b ≤ 0) (mergeSortGo c fuel l) := by
  intro fuel
  induction fuel with
  | zero =>
      intro l hlen _
      rw [List.length_eq_zero.1 (Nat.le_zero.1 hlen)]
      simp [mergeSortGo]
  | succ fuel ih =>
      intro l hlen htot
      rw [mergeSortGo]
      by_cases h : l.length ≤ 1
      · rw [if_pos h]
        match l, h with
        | [], _ => exact List.Pairwise.nil
        | [a], _ => exact List.pairwise_singleton _ a
      · rw [if_neg h]
        have htake : List.Pairwise (fun a b => c a b ≤ 0 ∨ c b a ≤ 0) (l.take (l.length / 2)) :=
          htot.sublist (List.take_sublist _ _)
        have hdrop : List.Pairwise (fun a b => c a b ≤ 0 ∨ c b a ≤ 0) (l.drop (l.length / 2)) :=
          htot.sublist (List.drop_sublist _ _)
        have hs1 := ih (l.take (l.length / 2)) (by simp; omega) htake
        have hs2 := ih (l.drop (l.length / 2)) (by simp; omega) hdrop
        refine jsMergeGo_pairwise c htrans _ _ _ (le_refl _) hs1 hs2 ?_
        have hperm : ((mergeSortGo c fuel (l.take (l.length / 2))) ++
            (mergeSortGo c fuel (l.drop (l.length / 2)))).Perm l := by
          refine ((mergeSortGo_perm c fuel _).append (mergeSortGo_perm c fuel _)).trans ?_
          rw [List.take_append_drop]
        exact (hperm.pairwise_iff (fun h => Or.symm h)).2 htot

lemma mergeSortBy_pairwise {α : Type} (c : α → α → ℚ)
    (htrans : ∀ a b d : α, c a b ≤ 0 → c b d ≤ 0 → c a d ≤ 0)
    (l : List α)
    (htot : List.Pairwise (fun a b => c a b ≤ 0 ∨ c b a ≤ 0) l) :
    List.Pairwise (fun a b => c a b ≤ 0) (mergeSortBy c l) :=
  mergeSortGo_pairwise c htrans l.length l (le_refl _) htot

lemma strCmpQ_nonpos_cases : ∀ s t : List Char, strCmpQ s t ≤ 0 ∨ strCmpQ s t = 1 := by
  intro s
  induction s with
  | nil => intro t; cases t <;> simp [strCmpQ]
  | cons a as ih =>
      intro t
      cases t with
      | nil => simp [strCmpQ]
      | cons b bs =>
          rw [strCmpQ]
          by_cases h1 : a < b
          · rw [if_pos h1]; norm_num
          · rw [if_neg h1]
            by_cases h2 : b < a
            · rw [if_pos h2]; norm_num
            · rw [if_neg h2]; exact ih bs

lemma strCmpQ_trans : ∀ s t u : List Char,
    strCmpQ s t ≤ 0 → strCmpQ t u ≤ 0 → strCmpQ s u ≤ 0 := by
  intro s
  induction s with
  | nil => intro t u _ _; cases u <;> simp [strCmpQ]
  | cons a as ih =>
      intro t u h1 h2
      cases t with
      | nil => rw [strCmpQ] at h1; norm_num at h1
      | cons b bs =>
          cases u with
          | nil => rw [strCmpQ] at h2; norm_num at h2
          | cons e es =>
              rw [strCmpQ] at h1 h2 ⊢
              by_cases hab : a < b
              · rw [if_pos hab] at h1
                by_cases hbe : b < e
                · rw [if_pos (lt_trans hab hbe)]; norm_num
                · rw [if_neg hbe] at h2
                  by_cases heb : e < b
                  · rw [if_pos heb] at h2; norm_num at h2
                  · have hbeq : b = e := le_antisymm (not_lt.1 heb) (not_lt.1 hbe)
                    rw [if_pos (hbeq ▸ hab)]; norm_num
              · rw [if_neg hab] at h1
                by_cases hba : b < a
                · rw [if_pos hba] at h1; norm_num at h1
                · rw [if_neg hba] at h1
                  have habeq : a = b := le_antisymm (not_lt.1 hba) (not_lt.1 hab)
                  by_cases hbe : b < e
                  · rw [if_pos (habeq ▸ hbe)]; norm_num
                  · rw [if_neg hbe] at h2
                    by_cases heb : e < b
                    · rw [if_pos heb] at h2; norm_num at h2
                    · rw [if_neg heb] at h2
                      rw [if_neg (habeq ▸ hbe), if_neg (habeq ▸ heb)]
                      exact ih bs es h1 h2

lemma strCmpQ_total : ∀ s t : List Char, strCmpQ s t ≤ 0 ∨ strCmpQ t s ≤ 0 := by
  intro s
  induction s with
  | nil => intro t; cases t <;> simp [strCmpQ]
  | cons a as ih =>
      intro t
      cases t with
      | nil => right; simp [strCmpQ]
      | cons b bs =>
          rw [strCmpQ, strCmpQ]
          by_cases hab : a < b
          · left; rw [if_pos hab]; norm_num
          · by_cases hba : b < a
            · right; rw [if_pos hba]; norm_num
            · rw [if_neg hab, if_neg hba, if_neg hba, if_neg hab]
              exact ih bs

def lastEndB (endPoint : String) (duration : ℕ) (l : Loc8) : Bool :=
  decide (l.dayIndex ≠ 0) && decide (l.dayIndex = (duration : ℚ) - 1) &&
    endMatch endPoint l

lemma lastEndB_iff (endPoint : String) (duration : ℕ) (l : Loc8) :
    lastEndB endPoint duration l = true ↔
      l.dayIndex ≠ 0 ∧ l.dayIndex = (duration : ℚ) - 1 ∧ endMatch endPoint l = true := by
  rw [lastEndB]
  simp [and_assoc]

lemma cmpLoc_trans (endP : String) (dur : ℕ) (a b d : Loc8)
    (h1 : cmpLoc endP dur a b ≤ 0) (h2 : cmpLoc endP dur b d ≤ 0) :
    cmpLoc endP dur a d ≤ 0 := by
  have hone : ¬((1:ℚ) ≤ 0) := by norm_num
  have hneg : ((-1:ℚ) ≤ 0) := by norm_num
  by_cases hab : a.dayIndex = b.dayIndex
  · by_cases hbd : b.dayIndex = d.dayIndex
    · have had : a.dayIndex = d.dayIndex := hab.trans hbd
      unfold cmpLoc at h1 h2 ⊢
      rw [← hab] at h1
      rw [← hbd, ← hab] at h2
      rw [← had]
      rw [if_neg (fun h => h rfl)] at h1 h2 ⊢
      by_cases hsa : a.dayIndex = 0 ∧ a.isStartingPoint = true
      · rw [if_pos hsa]; exact hneg
      · rw [if_neg hsa] at h1 ⊢
        by_cases hsb : a.dayIndex = 0 ∧ b.isStartingPoint = true
        · rw [if_pos hsb] at h1; exact absurd h1 hone
        · rw [if_neg hsb] at h1 h2
          by_cases hsd : a.dayIndex = 0 ∧ d.isStartingPoint = true
          · rw [if_pos hsd] at h2; exact absurd h2 hone
          · rw [if_neg hsd] at h2 ⊢
            by_cases hEa : a.dayIndex ≠ 0 ∧ a.dayIndex = (dur : ℚ) - 1 ∧
                endMatch endP a = true
            · rw [if_pos hEa] at h1; exact absurd h1 hone
            · rw [if_neg hEa] at h1 ⊢
              by_cases hEd : a.dayIndex ≠ 0 ∧ a.dayIndex = (dur : ℚ) - 1 ∧
                  endMatch endP d = true
              · rw [if_pos hEd]; exact hneg
              · rw [if_neg hEd]
                by_cases hEb : a.dayIndex ≠ 0 ∧ a.dayIndex = (dur : ℚ) - 1 ∧
                    endMatch endP b = true
                · rw [if_pos hEb] at h2; exact absurd h2 hone
                · rw [if_neg hEb] at h1 h2
                  rw [if_neg hEd] at h2
                  by_cases hlt : a.dayIndex < (dur : ℚ) - 1
                  · cases hha : a.isHotel <;> cases hhb : b.isHotel <;>
                      cases hhd : d.isHotel
                    · rw [if_neg (by simp [hha]), if_neg (by simp [hhb])] at h1
                      rw [if_neg (by simp [hhb]), if_neg (by simp [hhd])] at h2
                      rw [if_neg (by simp), if_neg (by simp)]
                      exact strCmpQ_trans _ _ _ h1 h2
                    · rw [if_neg (by simp), if_pos ⟨hlt, rfl, rfl⟩]
                      exact hneg
                    · rw [if_pos ⟨hlt, hhb, hhd⟩] at h2
                      exact absurd h2 hone
                    · rw [if_neg (by simp), if_pos ⟨hlt, rfl, rfl⟩]
                      exact hneg
                    · rw [if_pos ⟨hlt, hha, hhb⟩] at h1
                      exact absurd h1 hone
                    · rw [if_pos ⟨hlt, hha, hhb⟩] at h1
                      exact absurd h1 hone
                    · rw [if_pos ⟨hlt, hhb, hhd⟩] at h2
                      exact absurd h2 hone
                    · rw [if_neg (by simp [hhb]), if_neg (by simp [hha])] at h1
                      rw [if_neg (by simp [hhd]), if_neg (by simp [hhb])] at h2
                      rw [if_neg (by simp), if_neg (by simp)]
                      exact strCmpQ_trans _ _ _ h1 h2
                  · rw [if_neg (fun h => hlt h.1), if_neg (fun h => hlt h.1)] at h1
                    rw [if_neg (fun h => hlt h.1), if_neg (fun h => hlt h.1)] at h2
                    rw [if_neg (fun h => hlt h.1), if_neg (fun h => hlt h.1)]
                    exact strCmpQ_trans _ _ _ h1 h2
    · unfold cmpLoc at h2 ⊢
      rw [if_pos hbd] at h2
      have hlt : b.dayIndex < d.dayIndex :=
        lt_of_le_of_ne (sub_nonpos.1 h2) hbd
      have had : a.dayIndex ≠ d.dayIndex := by rw [hab]; exact ne_of_lt hlt
      rw [if_pos had, hab]
      exact sub_nonpos.2 (le_of_lt hlt)
  · by_cases hbd : b.dayIndex = d.dayIndex
    · unfold cmpLoc at h1 ⊢
      rw [if_pos hab] at h1
      have hlt : a.dayIndex < b.dayIndex :=
        lt_of_le_of_ne (sub_nonpos.1 h1) hab
      have had : a.dayIndex ≠ d.dayIndex := by rw [← hbd]; exact ne_of_lt hlt
      rw [if_pos had, ← hbd]
      exact sub_nonpos.2 (le_of_lt hlt)
    · unfold cmpLoc at h1 h2 ⊢
      rw [if_pos hab] at h1
      rw [if_pos hbd] at h2
      have hlt1 : a.dayIndex < b.dayIndex := lt_of_le_of_ne (sub_nonpos.1 h1) hab
      have hlt2 : b.dayIndex < d.dayIndex := lt_of_le_of_ne (sub_nonpos.1 h2) hbd
      have had : a.dayIndex ≠ d.dayIndex := ne_of_lt (lt_trans hlt1 hlt2)
      rw [if_pos had]
      exact sub_nonpos.2 (le_of_lt (lt_trans hlt1 hlt2))

lemma cmpLoc_total_of (endP : String) (dur : ℕ) (a b : Loc8)
    (h : ¬(lastEndB endP dur a = true ∧ lastEndB endP dur b = true)) :
    cmpLoc endP dur a b ≤ 0 ∨ cmpLoc endP dur b a ≤ 0 := by
  have hone : ¬((1:ℚ) ≤ 0) := by norm_num
  have hneg : ((-1:ℚ) ≤ 0) := by norm_num
  have hkill : ¬(a.dayIndex ≠ a.dayIndex) := fun hh => hh rfl
  by_cases hab : a.dayIndex = b.dayIndex
  · have hba : b.dayIndex = a.dayIndex := hab.symm
    by_cases hsa : a.dayIndex = 0 ∧ a.isStartingPoint = true
    · left
      have e : cmpLoc endP dur a b = -1 := by
        unfold cmpLoc; rw [← hab, if_neg hkill, if_pos hsa]
      rw [e]; exact hneg
    · by_cases hsb : a.dayIndex = 0 ∧ b.isStartingPoint = true
      · right
        have e : cmpLoc endP dur b a = -1 := by
          unfold cmpLoc; rw [hba, if_neg hkill, if_pos hsb]
        rw [e]; exact hneg
      · by_cases hEa : a.dayIndex ≠ 0 ∧ a.dayIndex = (dur : ℚ) - 1 ∧
            endMatch endP a = true
        · by_cases hEb : a.dayIndex ≠ 0 ∧ a.dayIndex = (dur : ℚ) - 1 ∧
              endMatch endP b = true
          · refine absurd ⟨(lastEndB_iff endP dur a).2 hEa,
              (lastEndB_iff endP dur b).2 ⟨?_, ?_, hEb.2.2⟩⟩ h
            · rw [hba]; exact hEb.1
            · rw [hba]; exact hEb.2.1
          · right
            have e : cmpLoc endP dur b a = -1 := by
              unfold cmpLoc
              rw [hba, if_neg hkill, if_neg hsb, if_neg hsa, if_neg hEb, if_pos hEa]
            rw [e]; exact hneg
        · by_cases hEb : a.dayIndex ≠ 0 ∧ a.dayIndex = (dur : ℚ) - 1 ∧
              endMatch endP b = true
          · left
            have e : cmpLoc endP dur a b = -1 := by
              unfold cmpLoc
              rw [← hab, if_neg hkill, if_neg hsa, if_neg hsb, if_neg hEa, if_pos hEb]
            rw [e]; exact hneg
          · by_cases hlt : a.dayIndex < (dur : ℚ) - 1
            · cases hha : a.isHotel <;> cases hhb : b.isHotel
              · have e1 : cmpLoc endP dur a b =
                    strCmpQ (a.bestTimeToVisit.getD "").data
                      (b.bestTimeToVisit.getD "").data := by
                  unfold cmpLoc
                  rw [← hab, if_neg hkill, if_neg hsa, if_neg hsb, if_neg hEa,
                    if_neg hEb, if_neg (by simp [hha]), if_neg (by simp [hhb])]
                have e2 : cmpLoc endP dur b a =
                    strCmpQ (b.bestTimeToVisit.getD "").data
                      (a.bestTimeToVisit.getD "").data := by
                  unfold cmpLoc
                  rw [hba, if_neg hkill, if_neg hsb, if_neg hsa, if_neg hEb,
                    if_neg hEa, if_neg (by simp [hhb]), if_neg (by simp [hha])]
                rw [e1, e2]; exact strCmpQ_total _ _
              · left
                have e : cmpLoc endP dur a b = -1 := by
                  unfold cmpLoc
                  rw [← hab, if_neg hkill, if_neg hsa, if_neg hsb, if_neg hEa,
                    if_neg hEb, if_neg (by simp [hha]), if_pos ⟨hlt, hha, hhb⟩]
                rw [e]; exact hneg
              · right
                have e : cmpLoc endP dur b a = -1 := by
                  unfold cmpLoc
                  rw [hba, if_neg hkill, if_neg hsb, if_neg hsa, if_neg hEb,
                    if_neg hEa, if_neg (by simp [hhb]), if_pos ⟨hlt, hhb, hha⟩]
                rw [e]; exact hneg
              · have e1 : cmpLoc endP dur a b =
                    strCmpQ (a.bestTimeToVisit.getD "").data
                      (b.bestTimeToVisit.getD "").data := by
                  unfold cmpLoc
                  rw [← hab, if_neg hkill, if_neg hsa, if_neg hsb, if_neg hEa,
                    if_neg hEb, if_neg (by simp [hhb]), if_neg (by simp [hha])]
                have e2 : cmpLoc endP dur b a =
                    strCmpQ (b.bestTimeToVisit.getD "").data
                      (a.bestTimeToVisit.getD "").data := by
                  unfold cmpLoc
                  rw [hba, if_neg hkill, if_neg hsb, if_neg hsa, if_neg hEb,
                    if_neg hEa, if_neg (by simp [hha]), if_neg (by simp [hhb])]
                rw [e1, e2]; exact strCmpQ_total _ _
            · have e1 : cmpLoc endP dur a b =
                  strCmpQ (a.bestTimeToVisit.getD "").data
                    (b.bestTimeToVisit.getD "").data := by
                unfold cmpLoc
                rw [← hab, if_neg hkill, if_neg hsa, if_neg hsb, if_neg hEa,
                  if_neg hEb, if_neg (fun hh => hlt hh.1), if_neg (fun hh => hlt hh.1)]
              have e2 : cmpLoc endP dur b a =
                  strCmpQ (b.bestTimeToVisit.getD "").data
                    (a.bestTimeToVisit.getD "").data := by
                unfold cmpLoc
                rw [hba, if_neg hkill, if_neg hsb, if_neg hsa, if_neg hEb,
                  if_neg hEa, if_neg (fun hh => hlt hh.1), if_neg (fun hh => hlt hh.1)]
              rw [e1, e2]; exact strCmpQ_total _ _
  · rcases le_or_lt a.dayIndex b.dayIndex with hle | hlt2
    · left; unfold cmpLoc; rw [if_pos hab]; exact sub_nonpos.2 hle
    · right; unfold cmpLoc; rw [if_pos (Ne.symm hab)]
      exact sub_nonpos.2 (le_of_lt hlt2)

lemma cmpLoc_hotel_attraction (endP : String) (dur : ℕ) (a b : Loc8)
    (hd : a.dayIndex = b.dayIndex) (hlt : a.dayIndex < (dur : ℚ) - 1)
    (hsa : a.isStartingPoint = false) (ha : a.isHotel = true)
    (hb : b.isHotel = false) : cmpLoc endP dur a b = 1 := by
  unfold cmpLoc
  rw [if_neg (fun hh => hh hd), if_neg (by simp [hsa])]
  by_cases hsb : a.dayIndex = 0 ∧ b.isStartingPoint = true
  · rw [if_pos hsb]
  · rw [if_neg hsb, if_neg (fun hh => (ne_of_lt hlt) hh.2.1),
      if_neg (fun hh => (ne_of_lt hlt) hh.2.1), if_pos ⟨hlt, ha, hb⟩]

lemma countP_le_one_of_pairwise {α : Type} {R : α → α → Prop} {q : α → Bool} :
    ∀ {l : List α}, l.Pairwise R →
      (∀ a ∈ l, ∀ b ∈ l, q a = true → q b = true → R a b → False) →
      l.countP q ≤ 1 := by
  intro l
  induction l with
  | nil => intro _ _; simp [List.countP_nil]
  | cons x xs ih =>
      intro hp hq
      rcases List.pairwise_cons.1 hp with ⟨hx, hxs⟩
      by_cases hqx : q x = true
      · rw [List.countP_cons_of_pos _ _ hqx]
        have hz : xs.countP q = 0 := by
          rw [List.countP_eq_zero]
          intro b hb hqb
          exact hq x (List.mem_cons_self _ _) b (List.mem_cons_of_mem _ hb)
            hqx hqb (hx b hb)
        omega
      · rw [List.countP_cons_of_neg _ _ hqx]
        exact ih hxs (fun a ha b hb => hq a (List.mem_cons_of_mem _ ha)
          b (List.mem_cons_of_mem _ hb))

lemma countP_two_positions {α : Type} {q : α → Bool} {l : List α} {i j : ℕ}
    (hij : i < j) (hj : j < l.length) (hi' : q (l.get ⟨i, lt_trans hij hj⟩) = true)
    (hj' : q (l.get ⟨j, hj⟩) = true) : 2 ≤ l.countP q := by
  have hsplit : l = l.take (i + 1) ++ l.drop (i + 1) := (List.take_append_drop _ _).symm
  have h1 : 0 < (l.take (i + 1)).countP q := by
    rw [List.countP_pos]
    refine ⟨l.get ⟨i, lt_trans hij hj⟩, ?_, hi'⟩
    have : i < (l.take (i + 1)).length := by
      rw [List.length_take]
      exact lt_min (Nat.lt_succ_self _) (lt_trans hij hj)
    refine List.mem_iff_get.2 ⟨⟨i, this⟩, ?_⟩
    simp only [List.get_eq_getElem]
    rw [← List.getElem_take']
    simp only [List.length_take] at this
    omega
  have h2 : 0 < (l.drop (i + 1)).countP q := by
    rw [List.countP_pos]
    refine ⟨l.get ⟨j, hj⟩, ?_, hj'⟩
    have hjl : j - (i + 1) < (l.drop (i + 1)).length := by
      rw [List.length_drop]
      omega
    refine List.mem_iff_get.2 ⟨⟨j - (i + 1), hjl⟩, ?_⟩
    simp only [List.get_eq_getElem]
    rw [← List.getElem_drop']
    · simp only [show i + 1 + (j - (i + 1)) = j from by omega]
    · omega
  calc 2 ≤ (l.take (i + 1)).countP q + (l.drop (i + 1)).countP q := by omega
    _ = l.countP q := by rw [← List.countP_append, ← hsplit]

/-- Raw `dayIndex` of a parsed JSON item is nonnegative (when numeric). -/
def rawDayNonnegB (v : JVal) : Bool :=
  match objGet v "dayIndex" with
  | .num q => decide (0 ≤ q)
  | _ => true

/-- Hotel entry assigned to (processed) day `c`. -/
def hotelDayB (c : ℚ) (l : Loc8) : Bool := l.isHotel && decide (l.dayIndex = c)

/-- The entries of day `c` in returned order. -/
def dayEntries (out : List Loc8) (c : ℚ) : List Loc8 :=
  out.filter (fun l => decide (l.dayIndex = c))

/-- The hotel invariant of the spec: on every day except the last, every
entry before the day's final one is not a hotel (hence at most one hotel,
and only in the final position). -/
def hotelInvariant (duration : ℕ) (out : List Loc8) : Prop :=
  ∀ c : ℚ, c ≠ (duration : ℚ) - 1 →
    ∀ x ∈ (dayEntries out c).dropLast, x.isHotel = false

lemma processLoc_isHotel (s : String) (dur : ℕ) (pace : Pace) (n i : ℕ)
    (l : Loc8) : (processLoc s dur pace n i l).isHotel = l.isHotel := by
  cases hl : l.isHotel <;> simp [processLoc, hl]

lemma processLoc_dayIndex (s : String) (dur : ℕ) (pace : Pace) (n i : ℕ)
    (l : Loc8) : (processLoc s dur pace n i l).dayIndex = clampDay dur l.dayIndex := by
  cases hl : l.isHotel <;> simp [processLoc, hl]

lemma enumFrom_pairwise_fst {α : Type} :
    ∀ (n : ℕ) (l : List α), (List.enumFrom n l).Pairwise (fun p q => p.1 < q.1) := by
  intro n l
  induction l generalizing n with
  | nil => simp [List.enumFrom]
  | cons x xs ih =>
      rw [List.enumFrom]
      refine List.pairwise_cons.2 ⟨?_, ih (n + 1)⟩
      intro p hp
      have := List.mem_enumFrom hp
      omega

lemma countP_enumFrom_snd {α : Type} (pr : α → Bool) :
    ∀ (n : ℕ) (l : List α),
      (List.enumFrom n l).countP (fun p => pr p.2) = l.countP pr := by
  intro n l
  induction l generalizing n with
  | nil => simp [List.enumFrom]
  | cons x xs ih =>
      rw [List.enumFrom, List.countP_cons, List.countP_cons, ih (n + 1)]

lemma dedupe_hotel_count (locs : List Loc8) (d : ℚ) :
    (dedupeHotels locs).countP (hotelDayB d) ≤ 1 := by
  rw [dedupeHotels, List.countP_map]
  have hpw : (locs.enum.filter
      (fun p => !p.2.isHotel || decide (lastHotelIdx locs p.2.dayIndex = some p.1))).Pairwise
      (fun p q : ℕ × Loc8 => p.1 < q.1) :=
    (enumFrom_pairwise_fst 0 locs).sublist (List.filter_sublist _)
  refine countP_le_one_of_pairwise hpw ?_
  intro p hp q hq hqp hqq hlt
  have hp' := List.mem_filter.1 hp
  have hq' := List.mem_filter.1 hq
  have hph : p.2.isHotel = true ∧ p.2.dayIndex = d := by
    have h2 := hqp
    simp only [Function.comp, hotelDayB, Bool.and_eq_true, decide_eq_true_eq] at h2
    exact h2
  have hqh : q.2.isHotel = true ∧ q.2.dayIndex = d := by
    have h2 := hqq
    simp only [Function.comp, hotelDayB, Bool.and_eq_true, decide_eq_true_eq] at h2
    exact h2
  have h2 := hp'.2
  simp only [hph.1, Bool.not_true, Bool.false_or, decide_eq_true_eq] at h2
  rw [hph.2] at h2
  have h3 := hq'.2
  simp only [hqh.1, Bool.not_true, Bool.false_or, decide_eq_true_eq] at h3
  rw [hqh.2] at h3
  have : p.1 = q.1 := Option.some.inj (h2.symm.trans h3)
  omega

lemma validateEntry_dayIndex (i : ℕ) (v : JVal) (l : Loc8)
    (h : validateEntry i v = Except.ok l) :
    objGet v "dayIndex" = JVal.num l.dayIndex := by
  unfold validateEntry at h
  split at h
  · cases h
  · split at h
    · split at h
      · split at h
        · split at h
          · cases h
            assumption
          · split at h
            · cases h
              assumption
            · cases h
        · cases h
        · cases h
      · cases h
    · cases h

lemma countP_ensureStart (s : String) (parsed : List Loc8) (pc : Loc8 → Bool)
    (hstart : pc (startingLocation s) = false) :
    (ensureStart s parsed).countP pc = parsed.countP pc := by
  cases parsed with
  | nil => rw [ensureStart]; simp [hstart]
  | cons l ls =>
      rw [ensureStart]
      split
      · rfl
      · rw [List.countP_cons_of_neg _ _ (by simp [hstart])]

lemma pairwise_tot_of_countP (endP : String) (dur : ℕ) :
    ∀ (l : List Loc8), l.countP (lastEndB endP dur) ≤ 1 →
      l.Pairwise (fun a b => cmpLoc endP dur a b ≤ 0 ∨ cmpLoc endP dur b a ≤ 0) := by
  intro l
  induction l with
  | nil => intro _; exact List.Pairwise.nil
  | cons x xs ih =>
      intro hc
      rw [List.countP_cons] at hc
      refine List.pairwise_cons.2 ⟨?_, ih (by omega)⟩
      intro b hb
      refine cmpLoc_total_of endP dur x b (fun hboth => ?_)
      have hx : lastEndB endP dur x = true := hboth.1
      have hblast : 0 < xs.countP (lastEndB endP dur) :=
        List.countP_pos_iff.2 ⟨b, hb, hboth.2⟩
      simp only [hx, if_true] at hc
      omega

lemma processAttempt_count (s e : String) (dur : ℕ) (pace : Pace)
    (parsed : List Loc8) (c : ℚ) :
    (processAttempt s e dur pace parsed).countP (hotelDayB c) =
      parsed.countP (fun x => x.isHotel && decide (clampDay dur x.dayIndex = c)) := by
  simp only [processAttempt]
  rw [(mergeSortBy_perm _ _).countP_eq, List.countP_map]
  have h1 : ((ensureStart s parsed).enum).countP
      ((hotelDayB c) ∘ (fun p : ℕ × Loc8 =>
        processLoc s dur pace (ensureStart s parsed).length p.1 p.2)) =
      ((ensureStart s parsed).enum).countP
        (fun p : ℕ × Loc8 => p.2.isHotel && decide (clampDay dur p.2.dayIndex = c)) := by
    refine List.countP_congr ?_
    intro p _
    simp [Function.comp, hotelDayB, processLoc_isHotel, processLoc_dayIndex]
  rw [h1]
  exact (countP_enumFrom_snd
      (fun x => x.isHotel && decide (clampDay dur x.dayIndex = c)) 0
      (ensureStart s parsed)).trans
    (countP_ensureStart s parsed _ (by simp [startingLocation]))

lemma processAttempt_mem_day (s e : String) (dur : ℕ) (pace : Pace)
    (parsed : List Loc8) {x : Loc8}
    (hx : x ∈ processAttempt s e dur pace parsed) :
    ∃ q : ℚ, x.dayIndex = clampDay dur q := by
  simp only [processAttempt] at hx
  have hx2 := (mergeSortBy_perm _ _).mem_iff.1 hx
  obtain ⟨p, _, rfl⟩ := List.mem_map.1 hx2
  exact ⟨p.2.dayIndex, processLoc_dayIndex _ _ _ _ _ _⟩

lemma clampDay_nonneg (dur : ℕ) (q : ℚ) : 0 ≤ clampDay dur q := le_max_left _ _

lemma clampDay_le (dur : ℕ) (hdur : 1 ≤ dur) (q : ℚ) :
    clampDay dur q ≤ (dur : ℚ) - 1 := by
  rw [clampDay]
  have hd0 : (0:ℚ) ≤ (dur : ℚ) - 1 := by
    have : (1:ℚ) ≤ (dur : ℚ) := by exact_mod_cast hdur
    linarith
  exact max_le hd0 (min_le_left _ _)

lemma clampDay_eq_of_ne_last (dur : ℕ) (hdur : 1 ≤ dur) (q c : ℚ) (hq : 0 ≤ q)
    (hc : c ≠ (dur : ℚ) - 1) (h : clampDay dur q = c) : q = c := by
  rw [clampDay] at h
  have hd0 : (0:ℚ) ≤ (dur : ℚ) - 1 := by
    have : (1:ℚ) ≤ (dur : ℚ) := by exact_mod_cast hdur
    linarith
  rcases le_or_lt ((dur : ℚ) - 1) q with hge | hlt
  · rw [min_eq_left hge, max_eq_right hd0] at h
    exact absurd h.symm hc
  · rw [min_eq_right (le_of_lt hlt), max_eq_right hq] at h
    exact h

/-- C1 (amended): for every location list produced by a successful
`generateItinerary` attempt, provided the parsed day indices are nonnegative,
no returned hotel entry matches the start point, and at most one returned
entry is an end-point match on the last day, every day except the last has at
most one hotel entry, and when present the hotel is the day's last entry. -/
theorem attemptProcess_hotel_invariant
    (startP endP : String) (duration : ℕ) (pace : Pace) (items : List JVal)
    (out : List Loc8)
    (hdur : 1 ≤ duration)
    (hok : attemptProcess startP endP duration pace items = Except.ok out)
    (hday : ∀ v ∈ items, rawDayNonnegB v = true)
    (hhot : ∀ l ∈ out, l.isHotel = true → l.isStartingPoint = false)
    (hend : out.countP (lastEndB endP duration) ≤ 1) :
    hotelInvariant duration out := by
  rw [attemptProcess] at hok
  cases hn : normalizeParsed items with
  | error e => rw [hn] at hok; simp [Except.map] at hok
  | ok parsed =>
    rw [hn] at hok
    have hout : processAttempt startP endP duration pace parsed = out := by
      simpa [Except.map] using hok
    rw [normalizeParsed] at hn
    split at hn
    · cases hn
    · cases hv : validateAll 0 items with
      | error e => rw [hv] at hn; simp [Except.map] at hn
      | ok vlocs =>
        rw [hv] at hn
        have hparsed : dedupeHotels vlocs = parsed := by
          simpa [Except.map] using hn
        have hvday : ∀ x ∈ vlocs, 0 ≤ x.dayIndex := by
          intro x hx
          obtain ⟨k, v, hvmem, hval⟩ := validateAll_mem items 0 vlocs hv x hx
          have hdx := validateEntry_dayIndex k v x hval
          have hnn := hday v hvmem
          unfold rawDayNonnegB at hnn
          rw [hdx] at hnn
          exact of_decide_eq_true hnn
        have hcnt : ∀ c : ℚ, c ≠ (duration : ℚ) - 1 →
            out.countP (hotelDayB c) ≤ 1 := by
          intro c hc
          rw [← hout, processAttempt_count]
          have hmono : parsed.countP
              (fun x => x.isHotel && decide (clampDay duration x.dayIndex = c)) ≤
              parsed.countP (hotelDayB c) := by
            refine List.countP_mono_left ?_
            intro x hx hpx
            simp only [Bool.and_eq_true, decide_eq_true_eq] at hpx
            rw [← hparsed] at hx
            have hx0 : 0 ≤ x.dayIndex := hvday x (mem_dedupeHotels hx)
            have hxc : x.dayIndex = c :=
              clampDay_eq_of_ne_last duration hdur _ c hx0 hc hpx.2
            simp [hotelDayB, hpx.1, hxc]
          refine le_trans hmono ?_
          rw [← hparsed]
          exact dedupe_hotel_count vlocs c
        have hPA : processAttempt startP endP duration pace parsed =
            mergeSortBy (cmpLoc endP duration)
              ((ensureStart startP parsed).enum.map
                (fun p => processLoc startP duration pace
                  (ensureStart startP parsed).length p.1 p.2)) := rfl
        have hPerm : out.Perm ((ensureStart startP parsed).enum.map
            (fun p => processLoc startP duration pace
              (ensureStart startP parsed).length p.1 p.2)) := by
          rw [← hout, hPA]; exact mergeSortBy_perm _ _
        have hPLcount : (((ensureStart startP parsed).enum.map
            (fun p => processLoc startP duration pace
              (ensureStart startP parsed).length p.1 p.2))).countP
            (lastEndB endP duration) ≤ 1 := by
          rw [← hPerm.countP_eq]; exact hend
        have hsorted : out.Pairwise (fun a b => cmpLoc endP duration a b ≤ 0) := by
          rw [← hout, hPA]
          exact mergeSortBy_pairwise _ (fun a b d => cmpLoc_trans endP duration a b d) _
            (pairwise_tot_of_countP endP duration _ hPLcount)
        have hdayrange : ∀ x ∈ out, 0 ≤ x.dayIndex ∧
            x.dayIndex ≤ (duration : ℚ) - 1 := by
          intro x hx
          rw [← hout] at hx
          obtain ⟨q, hq⟩ := processAttempt_mem_day _ _ _ _ _ hx
          rw [hq]
          exact ⟨clampDay_nonneg _ _, clampDay_le _ hdur _⟩
        intro c hc x hx
        have hmem_day : ∀ z ∈ dayEntries out c, z.dayIndex = c ∧ z ∈ out := by
          intro z hz
          have h2 := List.mem_filter.1 hz
          exact ⟨of_decide_eq_true h2.2, h2.1⟩
        obtain ⟨⟨i, hi⟩, hxe⟩ := List.mem_iff_get.1 hx
        rw [List.length_dropLast] at hi
        have hsucc : i + 1 < (dayEntries out c).length := by omega
        have hilen : i < (dayEntries out c).length := by omega
        have hxi : (dayEntries out c).get ⟨i, hilen⟩ = x := by
          rw [← hxe]
          simp only [List.get_eq_getElem]
          rw [List.getElem_dropLast]
        cases hb : x.isHotel with
        | false => rfl
        | true =>
          exfalso
          have hes_sub : (dayEntries out c).Sublist out := List.filter_sublist out
          have hespw : (dayEntries out c).Pairwise
              (fun a b => cmpLoc endP duration a b ≤ 0) := hsorted.sublist hes_sub
          have h1 : cmpLoc endP duration ((dayEntries out c).get ⟨i, hilen⟩)
              ((dayEntries out c).get ⟨i + 1, hsucc⟩) ≤ 0 :=
            List.pairwise_iff_get.1 hespw ⟨i, hilen⟩ ⟨i + 1, hsucc⟩ (Nat.lt_succ_self i)
          rw [hxi] at h1
          have hymem : (dayEntries out c).get ⟨i + 1, hsucc⟩ ∈ dayEntries out c :=
            List.get_mem _ _ _
          have hxmem : x ∈ dayEntries out c := by
            rw [← hxi]; exact List.get_mem _ _ _
          have hxout : x ∈ out := hes_sub.subset hxmem
          have hyout : (dayEntries out c).get ⟨i + 1, hsucc⟩ ∈ out :=
            hes_sub.subset hymem
          have hxday : x.dayIndex = c := (hmem_day x hxmem).1
          have hyday := (hmem_day _ hymem).1
          cases hyb : ((dayEntries out c).get ⟨i + 1, hsucc⟩).isHotel with
          | true =>
            have hxi' : (dayEntries out c).get
                ⟨i, lt_trans (Nat.lt_succ_self i) hsucc⟩ = x := hxi
            have h2 : 2 ≤ (dayEntries out c).countP (fun l => l.isHotel) :=
              countP_two_positions (Nat.lt_succ_self i) hsucc
                (by rw [hxi']; exact hb) hyb
            have h3 : (dayEntries out c).countP (fun l => l.isHotel) =
                out.countP (hotelDayB c) := by
              rw [dayEntries, List.countP_filter]
              exact List.countP_congr (fun z _ => by simp [hotelDayB])
            have h4 := hcnt c hc
            omega
          | false =>
            have hxlt : x.dayIndex < (duration : ℚ) - 1 := by
              rcases hdayrange x hxout with ⟨_, hle⟩
              exact lt_of_le_of_ne hle (by rw [hxday]; exact hc)
            have heval := cmpLoc_hotel_attraction endP duration x _
              (hxday.trans hyday.symm) hxlt (hhot x hxout hb) hb hyb
            rw [heval] at h1
            norm_num at h1

def c1CexItems : List JVal :=
  [JVal.obj [("name", JVal.str "paris tower"), ("dayIndex", JVal.num 0),
    ("bestTimeToVisit", JVal.str "am"), ("estimatedDuration", JVal.num 60)],
   JVal.obj [("name", JVal.str "[HOTEL] Grand"), ("dayIndex", JVal.num (-5))],
   JVal.obj [("name", JVal.str "[HOTEL] Petit"), ("dayIndex", JVal.num 0)]]

def c1CexHotel : Loc8 :=
  { name := "[HOTEL] Grand", description := "", dayIndex := 0, address := "",
    isStartingPoint := false, isHotel := true, estimatedDuration := none,
    bestTimeToVisit := none, travelTimeToNext := none }

/-- The full `generateItinerary` output on `c1CexItems` (duration 3). -/
def c1CexOut : List Loc8 :=
  [{ name := "paris tower", description := "", dayIndex := 0, address := "",
     isStartingPoint := true, isHotel := false, estimatedDuration := some 60,
     bestTimeToVisit := some "am", travelTimeToNext := some 25 },
   c1CexHotel,
   { name := "[HOTEL] Petit", description := "", dayIndex := 0, address := "",
     isStartingPoint := false, isHotel := true, estimatedDuration := none,
     bestTimeToVisit := none, travelTimeToNext := none }]

unseal Rat.add Rat.mul Rat.inv Rat.sub in
/-- C1 counterexample: a hotel with raw `dayIndex = -5` and a hotel with raw
`dayIndex = 0` are deduplicated under different raw days, then both are
clamped onto day 0 of a 3-day trip, so a non-last day ends with two hotel
entries and a hotel that is not the day's last entry. -/
theorem attemptProcess_hotel_two_on_day :
    attemptProcess "paris" "nowhere" 3 Pace.balanced c1CexItems =
      Except.ok c1CexOut ∧ ¬ hotelInvariant 3 c1CexOut :=
  ⟨by decide,
   fun hinv => absurd (hinv 0 (by norm_num) c1CexHotel (by decide)) (by decide)⟩

def c1WitItems : List JVal :=
  [JVal.obj [("name", JVal.str "nice beach"), ("dayIndex", JVal.num 0),
    ("bestTimeToVisit", JVal.str "am"), ("estimatedDuration", JVal.num 60)],
   JVal.obj [("name", JVal.str "[HOTEL] Calme"), ("dayIndex", JVal.num 0)]]

/-- The full `generateItinerary` output on `c1WitItems` (duration 2). -/
def c1WitOut : List Loc8 :=
  [{ name := "nice beach", description := "", dayIndex := 0, address := "",
     isStartingPoint := true, isHotel := false, estimatedDuration := some 60,
     bestTimeToVisit := some "am", travelTimeToNext := some 25 },
   { name := "[HOTEL] Calme", description := "", dayIndex := 0, address := "",
     isStartingPoint := false, isHotel := true, estimatedDuration := none,
     bestTimeToVisit := none, travelTimeToNext := none }]

unseal Rat.add Rat.mul Rat.inv Rat.sub in
/-- Witness for C1's amended theorem at a concrete well-formed input. -/
theorem attemptProcess_hotel_invariant_witness :
    (1 ≤ 2 ∧
      attemptProcess "nice" "mars" 2 Pace.balanced c1WitItems =
        Except.ok c1WitOut ∧
      (∀ v ∈ c1WitItems, rawDayNonnegB v = true) ∧
      (∀ l ∈ c1WitOut, l.isHotel = true → l.isStartingPoint = false) ∧
      c1WitOut.countP (lastEndB "mars" 2) ≤ 1) ∧
    hotelInvariant 2 c1WitOut :=
  ⟨⟨by norm_num, by decide, by decide, by decide, by decide⟩,
   attemptProcess_hotel_invariant "nice" "mars" 2 Pace.balanced c1WitItems
     c1WitOut (by norm_num) (by decide) (by decide) (by decide) (by decide)⟩

/-!  ## The text pipeline of `cleanAndParseResponse` (lines 96-218) -/

def trimC (s : List Char) : List Char :=
  ((s.dropWhile jsWhite).reverse.dropWhile jsWhite).reverse

/-- The leftmost match of `/\[[\s\S]*\]/`: from the first `[` through the last
`]` after it, if any. -/
def jsMatchArr (s : List Char) : Option (List Char) :=
  let pre := s.dropWhile (· ≠ '[')
  match pre with
  | [] => none
  | _ :: rest =>
      let revTail := rest.reverse.dropWhile (· ≠ ']')
      match revTail with
      | [] => none
      | _ => some ('[' :: revTail.reverse)

/-- `text.replace(/^[^[]*(\[[\s\S]*\])[^]*$/, '$1')`: keep from the first `[`
through the last `]` when the anchored pattern matches, else leave unchanged. -/
def extractBrackets (s : List Char) : List Char := (jsMatchArr s).getD s

/-- A matcher tries a regex alternative at the current position: on success it
yields the replacement text and the suffix after the consumed characters (a
successful match always consumes at least one character). -/
def Matcher : Type := List Char → Option (List Char × List Char)

/-- `String.replace(re, rep)` with a global regex: scan left to right, replace
every non-overlapping match, never rescanning replacements. -/
def scanRepGo (m : Matcher) : ℕ → List Char → List Char
  | 0, s => s
  | _ + 1, [] => []
  | fuel + 1, c :: cs =>
      match m (c :: cs) with
      | some (rep, rest) => rep ++ scanRepGo m fuel rest
      | none => c :: scanRepGo m fuel cs

def scanRep (m : Matcher) (s : List Char) : List Char := scanRepGo m s.length s

/-- `String.replace` with a non-global regex: only the first match. -/
def repFirstGo (m : Matcher) : ℕ → List Char → List Char
  | 0, s => s
  | _ + 1, [] => []
  | fuel + 1, c :: cs =>
      match m (c :: cs) with
      | some (rep, rest) => rep ++ rest
      | none => c :: repFirstGo m fuel cs

def repFirst (m : Matcher) (s : List Char) : List Char := repFirstGo m s.length s

/-- Find the first occurrence of `pat`: the text before it and the text after
it. -/
def findSub (pat : List Char) : List Char → Option (List Char × List Char)
  | [] => none
  | c :: cs =>
      if isPrefixChars pat (c :: cs) then some ([], (c :: cs).drop pat.length)
      else
        match findSub pat cs with
        | some (pre, rest) => some (c :: pre, rest)
        | none => none

/-- `/```json\s*|\s*```/g` (markdown fence removal). -/
def mdMatcher : Matcher := fun s =>
  if isPrefixChars "```json".data s then
    let r := s.drop 7
    some ([], r.drop (r.takeWhile jsWhite).length)
  else
    let w := s.takeWhile jsWhite
    let r := s.drop w.length
    if isPrefixChars "```".data r then some ([], r.drop 3) else none

/-- `/\r\n/g → '\n'`. -/
def crlfMatcher : Matcher := fun s =>
  if isPrefixChars ['\r', '\n'] s then some (['\n'], s.drop 2) else none

/-- `/\n\s+/g → ' '`. -/
def nlwsMatcher : Matcher := fun s =>
  match s with
  | '\n' :: rest =>
      let w := rest.takeWhile jsWhite
      if w.isEmpty then none else some ([' '], rest.drop w.length)
  | _ => none

/-- `/\/\*[\s\S]*?\*\/|\/\/.*/g → ''` (comment removal). -/
def commentMatcher : Matcher := fun s =>
  if isPrefixChars "/*".data s then
    match findSub "*/".data (s.drop 2) with
    | some (_, rest) => some ([], rest)
    | none => none
  else if isPrefixChars "//".data s then
    let body := (s.drop 2).takeWhile (fun c => !(c = '\n' || c = '\r'))
    some ([], (s.drop 2).drop body.length)
  else none

def isWordChar (c : Char) : Bool := c.isAlpha || c.isDigit || c = '_'

/-- `/(['"])?([a-zA-Z0-9_]+)(['"])?\s*:/g → '"$2":'` (quote property names). -/
def quoteKeyMatcher : Matcher := fun s =>
  let r1 := match s with
    | c :: cs => if c = '\'' || c = '"' then cs else s
    | [] => s
  let word := r1.takeWhile isWordChar
  if word.isEmpty then none
  else
    let r2 := r1.drop word.length
    let r3 := match r2 with
      | c :: cs => if c = '\'' || c = '"' then cs else r2
      | [] => r2
    let r4 := r3.drop (r3.takeWhile jsWhite).length
    match r4 with
    | ':' :: rest => some ('"' :: word ++ ['"', ':'], rest)
    | _ => none

def ciPrefix (pat : List Char) (s : List Char) : Bool :=
  isPrefixChars (pat.map Char.toLower) (s.map Char.toLower)

/-- One alternative of the boolean-normalization pass for a given key:
`/"(key)"\s*:\s*(true|false|\d)/i` with the replacement computing
`value === 'true' || value === '1'`. -/
def boolKeyTry (key : List Char) (s : List Char) : Option (List Char × List Char) :=
  match s with
  | '"' :: r1 =>
      if ciPrefix key (r1.take key.length) && decide (key.length ≤ r1.length) then
        let keyTxt := r1.take key.length
        match r1.drop key.length with
        | '"' :: r2 =>
            let r3 := r2.drop (r2.takeWhile jsWhite).length
            match r3 with
            | ':' :: r4 =>
                let r5 := r4.drop (r4.takeWhile jsWhite).length
                let valTxt : Option (List Char × List Char) :=
                  if ciPrefix "true".data (r5.take 4) && decide (4 ≤ r5.length) then
                    some (r5.take 4, r5.drop 4)
                  else if ciPrefix "false".data (r5.take 5) && decide (5 ≤ r5.length) then
                    some (r5.take 5, r5.drop 5)
                  else
                    match r5 with
                    | d :: r6 => if d.isDigit then some ([d], r6) else none
                    | [] => none
                match valTxt with
                | some (v, rest) =>
                    let b := decide (v = "true".data) || decide (v = ['1'])
                    some ('"' :: keyTxt ++ ['"', ':'] ++
                      (if b then "true".data else "false".data), rest)
                | none => none
            | _ => none
        | _ => none
      else none
  | _ => none

/-- `/"(isStartingPoint|isHotel)"\s*:\s*(true|false|\d)/gi`. -/
def boolMatcher : Matcher := fun s =>
  match boolKeyTry "isStartingPoint".data s with
  | some r => some r
  | none => boolKeyTry "isHotel".data s

/-- One alternative of the quoted-number fix for a given key:
`/"(key)"\s*:\s*"?(\d+)"?/`. -/
def numKeyTry (key : List Char) (s : List Char) : Option (List Char × List Char) :=
  match s with
  | '"' :: r1 =>
      if isPrefixChars key r1 then
        match r1.drop key.length with
        | '"' :: r2 =>
            let r3 := r2.drop (r2.takeWhile jsWhite).length
            match r3 with
            | ':' :: r4 =>
                let r5 := r4.drop (r4.takeWhile jsWhite).length
                let r6 := match r5 with
                  | '"' :: t => t
                  | _ => r5
                let ds := r6.takeWhile Char.isDigit
                if ds.isEmpty then none
                else
                  let r7 := r6.drop ds.length
                  let r8 := match r7 with
                    | '"' :: t => t
                    | _ => r7
                  some ('"' :: key ++ ['"', ':'] ++ ds, r8)
            | _ => none
        | _ => none
      else none
  | _ => none

/-- `/"(estimatedDuration|travelTimeToNext|dayIndex)"\s*:\s*"?(\d+)"?/g`. -/
def numFieldMatcher : Matcher := fun s =>
  match numKeyTry "estimatedDuration".data s with
  | some r => some r
  | none =>
      match numKeyTry "travelTimeToNext".data s with
      | some r => some r
      | none => numKeyTry "dayIndex".data s

/-- The inner `/,\s*([^,]+)$/ → ', $1'` cleanup of the address/description
fixes. -/
def lastCommaFix (content : List Char) : List Char :=
  let revc := content.reverse
  let tailRev := revc.takeWhile (· ≠ ',')
  if tailRev.length = revc.length then content
  else
    let tl := tailRev.reverse
    let before := content.take (content.length - tl.length - 1)
    if tl.isEmpty then content
    else
      let w := tl.takeWhile jsWhite
      let rest1 := tl.drop w.length
      if rest1.isEmpty then before ++ [',', ' ', tl.getLastD ' ']
      else before ++ [',', ' '] ++ rest1

/-- `/"key"\s*:\s*"([^"]*?)(?<!\\)"(?=[,}])/g` with the inner cleanups (the
two quote-escaping fixes cannot match a `[^"]*` content and are identities). -/
def strFieldMatcher (key : List Char) : Matcher := fun s =>
  match s with
  | '"' :: r1 =>
      if isPrefixChars key r1 then
        match r1.drop key.length with
        | '"' :: r2 =>
            let r3 := r2.drop (r2.takeWhile jsWhite).length
            match r3 with
            | ':' :: r4 =>
                let r5 := r4.drop (r4.takeWhile jsWhite).length
                match r5 with
                | '"' :: r6 =>
                    let content := r6.takeWhile (· ≠ '"')
                    match r6.drop content.length with
                    | '"' :: r7 =>
                        if (content.getLastD ' ') = '\\' && !content.isEmpty then none
                        else
                          match r7 with
                          | c :: _ =>
                              if c = ',' || c = '\x7d' then
                                some ('"' :: key ++ ['"', ':', '"'] ++
                                  trimC (lastCommaFix content) ++ ['"'], r7)
                              else none
                          | [] => none
                    | _ => none
                | _ => none
            | _ => none
        | _ => none
      else none
  | _ => none

/-- `/,(\s*[}\]])/g → '$1'` (trailing commas before `}` or `]`). -/
def trailCommaMatcher : Matcher := fun s =>
  match s with
  | ',' :: r1 =>
      let w := r1.takeWhile jsWhite
      match r1.drop w.length with
      | c :: rest => if c = '\x7d' || c = ']' then some (w ++ [c], rest) else none
      | [] => none
  | _ => none

/-- `/,\s*,/g → ','` (double commas). -/
def dblCommaMatcher : Matcher := fun s =>
  match s with
  | ',' :: r1 =>
      let w := r1.takeWhile jsWhite
      match r1.drop w.length with
      | ',' :: rest => some ([','], rest)
      | _ => none
  | _ => none

/-- `/}\s*{/g → '},{'` (object separation). -/
def objSepMatcher : Matcher := fun s =>
  match s with
  | '\x7d' :: r1 =>
      let w := r1.takeWhile jsWhite
      match r1.drop w.length with
      | '\x7b' :: rest => some ("\x7d,\x7b".data, rest)
      | _ => none
  | _ => none

/-- `/\[\s*,\s*{/ → '[{'` (leading comma, first occurrence only). -/
def leadCommaMatcher : Matcher := fun s =>
  match s with
  | '[' :: r1 =>
      let w := r1.takeWhile jsWhite
      match r1.drop w.length with
      | ',' :: r2 =>
          let w2 := r2.takeWhile jsWhite
          match r2.drop w2.length with
          | '\x7b' :: rest => some ("[\x7b".data, rest)
          | _ => none
      | _ => none
  | _ => none

/-- `/}\s*,\s*\]/ → '}]'` (comma before `]`, first occurrence only). -/
def closeCommaMatcher : Matcher := fun s =>
  match s with
  | '\x7d' :: r1 =>
      let w := r1.takeWhile jsWhite
      match r1.drop w.length with
      | ',' :: r2 =>
          let w2 := r2.takeWhile jsWhite
          match r2.drop w2.length with
          | ']' :: rest => some ("\x7d]".data, rest)
          | _ => none
      | _ => none
  | _ => none

/-- The brace-matching scan of lines 121-154: count unbalanced `{`/`}` outside
strings and remember where the last top-level object closed. -/
def braceScanGo : List Char → ℕ → Bool → Bool → ℤ → Option ℕ → ℤ × Option ℕ
  | [], _, _, _, bc, last => (bc, last)
  | c :: cs, i, inStr, esc, bc, last =>
      if esc then braceScanGo cs (i + 1) inStr false bc last
      else if c = '\\' then braceScanGo cs (i + 1) inStr true bc last
      else if c = '"' then braceScanGo cs (i + 1) (!inStr) false bc last
      else if !inStr && c = '\x7b' then braceScanGo cs (i + 1) inStr false (bc + 1) last
      else if !inStr && c = '\x7d' then
        braceScanGo cs (i + 1) inStr false (bc - 1)
          (if bc - 1 = 0 then some i else last)
      else braceScanGo cs (i + 1) inStr false bc last

/-- Lines 156-161: when braces are left open, cut the text after the last
complete object and restore the closing `]` if the text is an array. -/
def braceTruncate (s : List Char) : List Char :=
  match braceScanGo s 0 false false 0 none with
  | (bc, some i) =>
      if bc > 0 then
        let t := s.take (i + 1)
        (if t.headD ' ' = '[' then t ++ [']'] else t)
      else s
  | (_, none) => s

/-- The full text-repair transformation of lines 109-201, from the regex
match to the repaired candidate JSON text. -/
def repairText (m0 : List Char) : List Char :=
  let t1 := trimC m0
  let t2 := scanRep mdMatcher t1
  let t3 := extractBrackets t2
  let t4 := scanRep crlfMatcher t3
  let t5 := scanRep nlwsMatcher t4
  let t6 := braceTruncate t5
  let t7 := scanRep commentMatcher t6
  let t8 := scanRep quoteKeyMatcher t7
  let t9 := scanRep boolMatcher t8
  let t10 := scanRep numFieldMatcher t9
  let t11 := scanRep (strFieldMatcher "address".data) t10
  let t12 := scanRep (strFieldMatcher "description".data) t11
  let t13 := scanRep trailCommaMatcher t12
  let t14 := scanRep dblCommaMatcher t13
  let t15 := scanRep objSepMatcher t14
  let t16 := repFirst leadCommaMatcher t15
  repFirst closeCommaMatcher t16



def jsonWs (c : Char) : Bool := c = ' ' || c = '\t' || c = '\n' || c = '\r'

def skipWs (s : List Char) : List Char := s.dropWhile jsonWs

def hexVal (c : Char) : Option ℕ :=
  if c.isDigit then some (c.toNat - 48)
  else if 'a' ≤ c && c ≤ 'f' then some (c.toNat - 87)
  else if 'A' ≤ c && c ≤ 'F' then some (c.toNat - 70 + 13)
  else none

/-- A JSON string body after the opening quote, with the standard escapes. -/
def parseJStr : ℕ → List Char → Option (List Char × List Char)
  | 0, _ => none
  | _ + 1, [] => none
  | fuel + 1, c :: cs =>
      if c = '"' then some ([], cs)
      else if c = '\\' then
        match cs with
        | [] => none
        | e :: cs2 =>
            let dec : Option (Char × List Char) :=
              if e = '"' then some ('"', cs2)
              else if e = '\\' then some ('\\', cs2)
              else if e = '/' then some ('/', cs2)
              else if e = 'b' then some ('\x08', cs2)
              else if e = 'f' then some ('\x0c', cs2)
              else if e = 'n' then some ('\n', cs2)
              else if e = 'r' then some ('\r', cs2)
              else if e = 't' then some ('\t', cs2)
              else if e = 'u' then
                match cs2 with
                | h1 :: h2 :: h3 :: h4 :: cs3 =>
                    match hexVal h1, hexVal h2, hexVal h3, hexVal h4 with
                    | some v1, some v2, some v3, some v4 =>
                        some (Char.ofNat (((v1 * 16 + v2) * 16 + v3) * 16 + v4), cs3)
                    | _, _, _, _ => none
                | _ => none
              else none
            match dec with
            | some (d, rest) =>
                match parseJStr fuel rest with
                | some (str, rest2) => some (d :: str, rest2)
                | none => none
            | none => none
      else if c.toNat < 32 then none
      else
        match parseJStr fuel cs with
        | some (str, rest2) => some (c :: str, rest2)
        | none => none

/-- A strict JSON number: optional minus, no leading zeros, optional fraction
and exponent. -/
def parseJNum (s : List Char) : Option (ℚ × List Char) :=
  let (sign, r1) : ℚ × List Char :=
    match s with
    | '-' :: r => (-1, r)
    | _ => (1, s)
  let ip := r1.takeWhile Char.isDigit
  if ip.isEmpty then none
  else if 1 < ip.length && ip.headD '0' = '0' then none
  else
    let r2 := r1.drop ip.length
    let (fp, r3) : List Char × List Char :=
      match r2 with
      | '.' :: t =>
          let f := t.takeWhile Char.isDigit
          (f, t.drop f.length)
      | _ => ([], r2)
    if (match r2 with | '.' :: _ => fp.isEmpty | _ => false) then none
    else
      let mant : ℚ := sign * ((digitsToNat ip : ℚ) +
        (digitsToNat fp : ℚ) / ((10 : ℚ) ^ fp.length))
      match r3 with
      | e :: t =>
          if e = 'e' || e = 'E' then
            let (esign, t2) : Bool × List Char :=
              match t with
              | '+' :: u => (true, u)
              | '-' :: u => (false, u)
              | _ => (true, t)
            let ed := t2.takeWhile Char.isDigit
            if ed.isEmpty then none
            else
              let pw : ℚ := ((10 : ℕ) ^ digitsToNat ed : ℕ)
              some ((if esign then mant * pw else mant / pw), t2.drop ed.length)
          else some (mant, r3)
      | [] => some (mant, r3)

mutual

/-- A JSON value (recursive descent; the fuel only bounds nesting). -/
def parseJV : ℕ → List Char → Option (JVal × List Char)
  | 0, _ => none
  | fuel + 1, s =>
      match skipWs s with
      | [] => none
      | c :: cs =>
          if c = 'n' then
            if isPrefixChars "ull".data cs then some (.null, cs.drop 3) else none
          else if c = 't' then
            if isPrefixChars "rue".data cs then some (.bool true, cs.drop 3) else none
          else if c = 'f' then
            if isPrefixChars "alse".data cs then some (.bool false, cs.drop 4) else none
          else if c = '"' then
            match parseJStr fuel cs with
            | some (str, rest) => some (.str (String.mk str), rest)
            | none => none
          else if c = '[' then
            match skipWs cs with
            | ']' :: rest => some (.arr [], rest)
            | _ =>
                match parseJArr fuel cs with
                | some (vs, rest) => some (.arr vs, rest)
                | none => none
          else if c = '\x7b' then
            match skipWs cs with
            | '\x7d' :: rest => some (.obj [], rest)
            | _ =>
                match parseJObj fuel cs with
                | some (fs, rest) => some (.obj fs, rest)
                | none => none
          else if c = '-' || c.isDigit then
            match parseJNum (c :: cs) with
            | some (q, rest) => some (.num q, rest)
            | none => none
          else none

/-- Comma-separated array elements up to the closing `]`. -/
def parseJArr : ℕ → List Char → Option (List JVal × List Char)
  | 0, _ => none
  | fuel + 1, s =>
      match parseJV fuel s with
      | some (v, rest) =>
          (match skipWs rest with
           | ']' :: rest2 => some ([v], rest2)
           | ',' :: rest2 =>
               match parseJArr fuel rest2 with
               | some (vs, rest3) => some (v :: vs, rest3)
               | none => none
           | _ => none)
      | none => none

/-- Comma-separated object members up to the closing `}`. -/
def parseJObj : ℕ → List Char → Option (List (String × JVal) × List Char)
  | 0, _ => none
  | fuel + 1, s =>
      match skipWs s with
      | '"' :: cs =>
          (match parseJStr fuel cs with
           | some (key, rest) =>
               (match skipWs rest with
                | ':' :: rest2 =>
                    (match parseJV fuel rest2 with
                     | some (v, rest3) =>
                         (match skipWs rest3 with
                          | '\x7d' :: rest4 => some ([(String.mk key, v)], rest4)
                          | ',' :: rest4 =>
                              match parseJObj fuel rest4 with
                              | some (fs, rest5) => some ((String.mk key, v) :: fs, rest5)
                              | none => none
                          | _ => none)
                     | none => none)
                | _ => none)
           | none => none)
      | _ => none

end

/-- `JSON.parse`: a single value with only trailing whitespace after it. -/
def jsonParse (s : List Char) : Option JVal :=
  match parseJV (2 * s.length + 2) s with
  | some (v, rest) => if (skipWs rest).isEmpty then some v else none
  | none => none


/-- Follow the global-replace scan and check that every match it performs is
an identity rewrite (the replacement equals the consumed text). -/
def scanIdB (m : Matcher) : ℕ → List Char → Bool
  | 0, _ => true
  | _ + 1, [] => true
  | fuel + 1, c :: cs =>
      match m (c :: cs) with
      | some (rep, rest) => decide (rep ++ rest = c :: cs) && scanIdB m fuel rest
      | none => scanIdB m fuel cs

lemma scanRepGo_eq_of_scanIdB (m : Matcher) :
    ∀ (fuel : ℕ) (s : List Char), scanIdB m fuel s = true →
      scanRepGo m fuel s = s := by
  intro fuel
  induction fuel with
  | zero => intro s _; rfl
  | succ fuel ih =>
      intro s hs
      cases s with
      | nil => rfl
      | cons c cs =>
          rw [scanIdB] at hs
          rw [scanRepGo]
          cases hm : m (c :: cs) with
          | none =>
              rw [hm] at hs
              rw [ih cs hs]
          | some p =>
              cases p with
              | mk rep rest =>
                  rw [hm] at hs
                  simp only [Bool.and_eq_true, decide_eq_true_eq] at hs
                  show rep ++ scanRepGo m fuel rest = c :: cs
                  rw [ih rest hs.2]
                  exact hs.1

lemma scanRep_id (m : Matcher) (s : List Char)
    (h : scanIdB m s.length s = true) : scanRep m s = s :=
  scanRepGo_eq_of_scanIdB m s.length s h

/-- The same check for a first-match-only replace. -/
def repFirstIdB (m : Matcher) : ℕ → List Char → Bool
  | 0, _ => true
  | _ + 1, [] => true
  | fuel + 1, c :: cs =>
      match m (c :: cs) with
      | some (rep, rest) => decide (rep ++ rest = c :: cs)
      | none => repFirstIdB m fuel cs

lemma repFirstGo_eq_of_repFirstIdB (m : Matcher) :
    ∀ (fuel : ℕ) (s : List Char), repFirstIdB m fuel s = true →
      repFirstGo m fuel s = s := by
  intro fuel
  induction fuel with
  | zero => intro s _; rfl
  | succ fuel ih =>
      intro s hs
      cases s with
      | nil => rfl
      | cons c cs =>
          rw [repFirstIdB] at hs
          rw [repFirstGo]
          cases hm : m (c :: cs) with
          | none =>
              rw [hm] at hs
              rw [ih cs hs]
          | some p =>
              cases p with
              | mk rep rest =>
                  rw [hm] at hs
                  simp only [decide_eq_true_eq] at hs
                  exact hs

lemma repFirst_id (m : Matcher) (s : List Char)
    (h : repFirstIdB m s.length s = true) : repFirst m s = s :=
  repFirstGo_eq_of_repFirstIdB m s.length s h

/-- Already-trimmed texts. -/
def trimmedB (s : List Char) : Bool :=
  (match s with | [] => true | c :: _ => !jsWhite c) &&
  (match s.getLast? with | none => true | some c => !jsWhite c)

lemma dropWhile_eq_self_of_head {p : Char → Bool} {s : List Char}
    (h : (match s with | [] => true | c :: _ => !p c) = true) :
    s.dropWhile p = s := by
  cases s with
  | nil => rfl
  | cons c cs =>
      rw [List.dropWhile_cons]
      have h2 : p c = false := by
        simp only [Bool.not_eq_true'] at h
        exact h
      rw [h2]
      simp

lemma trimC_id (s : List Char) (h : trimmedB s = true) : trimC s = s := by
  unfold trimmedB at h
  rw [Bool.and_eq_true] at h
  rw [trimC, dropWhile_eq_self_of_head h.1]
  have h2 : s.reverse.dropWhile jsWhite = s.reverse := by
    refine dropWhile_eq_self_of_head ?_
    cases hrev : s.reverse with
    | nil => rfl
    | cons c cs =>
        have hl : s.getLast? = some c := by
          rw [← List.head?_reverse, hrev]
          rfl
        have h3 := h.2
        rw [hl] at h3
        exact h3
  rw [h2, List.reverse_reverse]

/-- Texts already of the form `[ ... ]`. -/
def bracketedB (s : List Char) : Bool :=
  (match s with | c :: _ :: _ => decide (c = '[') | _ => false) &&
  (match s.getLast? with | some c => decide (c = ']') | none => false)

lemma bracketed_parts {s : List Char} (h : bracketedB s = true) :
    (∃ c2 cs2, s = '[' :: c2 :: cs2) ∧ s.getLast? = some ']' := by
  unfold bracketedB at h
  rw [Bool.and_eq_true] at h
  obtain ⟨h1, h2⟩ := h
  constructor
  · cases s with
    | nil => exact absurd h1 (by simp)
    | cons c cs =>
        cases cs with
        | nil => exact absurd h1 (by simp)
        | cons c2 cs2 =>
            simp only [decide_eq_true_eq] at h1
            exact ⟨c2, cs2, by rw [h1]⟩
  · cases hl : s.getLast? with
    | none => rw [hl] at h2; exact absurd h2 (by simp)
    | some c =>
        rw [hl] at h2
        simp only [decide_eq_true_eq] at h2
        rw [h2]

lemma extractBrackets_id (s : List Char) (h : bracketedB s = true) :
    extractBrackets s = s := by
  obtain ⟨⟨c2, cs2, rfl⟩, hlast⟩ := bracketed_parts h
  have hdw : (('[' : Char) :: c2 :: cs2).dropWhile (· ≠ '[') =
      '[' :: c2 :: cs2 := by
    rw [List.dropWhile_cons]
    simp
  have hlast2 : (c2 :: cs2).getLast? = some ']' := by
    rw [← List.getLast?_cons_cons]
    exact hlast
  have hrev : ∃ t, (c2 :: cs2).reverse = ']' :: t := by
    cases hr : (c2 :: cs2).reverse with
    | nil => exact absurd (congrArg List.length hr) (by simp)
    | cons d t =>
        refine ⟨t, ?_⟩
        have hd : (c2 :: cs2).getLast? = some d := by
          rw [← List.head?_reverse, hr]
          rfl
        rw [hlast2] at hd
        cases hd
        rfl
  obtain ⟨t, ht⟩ := hrev
  have hback : (']' :: t).reverse = c2 :: cs2 := by
    rw [← ht, List.reverse_reverse]
  rw [extractBrackets]
  have hjm : jsMatchArr ('[' :: c2 :: cs2) = some ('[' :: c2 :: cs2) := by
    simp [jsMatchArr, hdw, ht, hback]
  rw [hjm]
  rfl

/-- Texts whose braces balance (the truncation pass leaves them unchanged). -/
def braceBalancedB (s : List Char) : Bool :=
  decide ((braceScanGo s 0 false false 0 none).1 ≤ 0)

lemma braceTruncate_id (s : List Char) (h : braceBalancedB s = true) :
    braceTruncate s = s := by
  rw [braceBalancedB, decide_eq_true_eq] at h
  rw [braceTruncate]
  cases hscan : braceScanGo s 0 false false 0 none with
  | mk bc last =>
      cases last with
      | none => rfl
      | some i =>
          have hnb : ¬ bc > 0 := by
            rw [hscan] at h
            omega
          simp [hnb]

/-- Every repair pass acts as the identity on `s`: decidably checkable. -/
def repairStableB (s : List Char) : Bool :=
  trimmedB s &&
  (scanIdB mdMatcher s.length s &&
  (bracketedB s &&
  (scanIdB crlfMatcher s.length s &&
  (scanIdB nlwsMatcher s.length s &&
  (braceBalancedB s &&
  (scanIdB commentMatcher s.length s &&
  (scanIdB quoteKeyMatcher s.length s &&
  (scanIdB boolMatcher s.length s &&
  (scanIdB numFieldMatcher s.length s &&
  (scanIdB (strFieldMatcher "address".data) s.length s &&
  (scanIdB (strFieldMatcher "description".data) s.length s &&
  (scanIdB trailCommaMatcher s.length s &&
  (scanIdB dblCommaMatcher s.length s &&
  (scanIdB objSepMatcher s.length s &&
  (repFirstIdB leadCommaMatcher s.length s &&
  repFirstIdB closeCommaMatcher s.length s)))))))))))))))

theorem repairText_fixed_of_stable (s : List Char) (h : repairStableB s = true) :
    repairText s = s := by
  unfold repairStableB at h
  simp only [Bool.and_eq_true] at h
  obtain ⟨h1, h2, h3, h4, h5, h6, h7, h8, h9, h10, h11, h12, h13, h14, h15,
    h16, h17⟩ := h
  simp only [repairText]
  rw [trimC_id s h1, scanRep_id mdMatcher s h2, extractBrackets_id s h3,
    scanRep_id crlfMatcher s h4, scanRep_id nlwsMatcher s h5,
    braceTruncate_id s h6, scanRep_id commentMatcher s h7,
    scanRep_id quoteKeyMatcher s h8, scanRep_id boolMatcher s h9,
    scanRep_id numFieldMatcher s h10,
    scanRep_id (strFieldMatcher "address".data) s h11,
    scanRep_id (strFieldMatcher "description".data) s h12,
    scanRep_id trailCommaMatcher s h13, scanRep_id dblCommaMatcher s h14,
    scanRep_id objSepMatcher s h15, repFirst_id leadCommaMatcher s h16,
    repFirst_id closeCommaMatcher s h17]


/-- `cleanAndParseResponse` (lines 96-303): extract the array-looking span,
repair it, parse it, and validate the entries; errors thrown inside the
`try` block are wrapped with `Failed to parse AI response: ` (the model uses
a fixed message for `JSON.parse` syntax errors, whose exact text the claims
do not depend on). -/
def cleanAndParseResponse (text : String) : Except String (List Loc8) :=
  let s := text.data
  if s.isEmpty then Except.error "Empty or invalid response from AI service"
  else
    match jsMatchArr s with
    | none => Except.error "No JSON array found in response"
    | some m0 =>
        let cleaned := repairText m0
        if !(cleaned.headD ' ' = '[' && cleaned.getLastD ' ' = ']') then
          Except.error "Invalid JSON structure: Must be an array"
        else
          match jsonParse cleaned with
          | none => Except.error "Failed to parse AI response: Invalid JSON"
          | some (JVal.arr items) =>
              (normalizeParsed items).mapError
                (fun e => "Failed to parse AI response: " ++ e)
          | some _ =>
              Except.error "Failed to parse AI response: Parsed result is not an array"

def c5Input : String :=
  "[\x7b\"name\":\"Louvre Museum\",\"dayIndex\":0\x7d,\x7b\"name\":\"Eiffel"

unseal Rat.add Rat.mul Rat.inv Rat.sub in
/-- C5: an AI response truncated inside its second object (so no `]` ever
appears) is rejected by the initial `/\[[\s\S]*\]/` extraction with
`No JSON array found in response` before the brace-matching recovery can run,
even though that recovery (applied to the same text) yields exactly the
complete first object.  The spec's scenario C does not hold. -/
theorem cleanAndParse_truncated_midobject_throws :
    cleanAndParseResponse c5Input =
      Except.error "No JSON array found in response" ∧
    jsonParse (braceTruncate (trimC c5Input.data)) =
      some (JVal.arr [JVal.obj [("name", JVal.str "Louvre Museum"),
        ("dayIndex", JVal.num 0)]]) :=
  ⟨rfl, rfl⟩

def c6CommaIn : List Char := "[\x7b\"a\": 1,,,\"b\": 2\x7d]".data

/-- C6 counterexample: the double-comma pass `/,\s*,/g` collapses `,,,` to
`,,` in one run (the scan resumes after each replacement) and to `,` only on
a second run, so the repair pipeline is not idempotent. -/
theorem repairText_not_idempotent :
    repairText (repairText c6CommaIn) ≠ repairText c6CommaIn := by decide

/-- C6 (amended): the repair pipeline is a fixed point on every text on which
each of its passes acts as the identity (decidably checked by
`repairStableB`); in particular, whenever a repaired output passes that
check, running the pipeline twice equals running it once.  Unconditional
idempotence is false (`repairText_not_idempotent`). -/
theorem repairText_idempotent_of_stable (x : List Char)
    (h : repairStableB (repairText x) = true) :
    repairText (repairText x) = repairText x :=
  repairText_fixed_of_stable _ h

def c6StableIn : List Char :=
  "```json\n[\x7b\"name\": \"Tour A\", \"dayIndex\": 0\x7d]\n```".data

/-- Witness for C6's amended theorem: a fenced, well-formed response whose
repaired text is stable. -/
theorem repairText_idempotent_witness :
    repairStableB (repairText c6StableIn) = true ∧
    repairText (repairText c6StableIn) = repairText c6StableIn :=
  ⟨by decide, repairText_idempotent_of_stable c6StableIn (by decide)⟩
